import Mathlib

/-!
Shallow embedding of `MakeDepartureList` from src/src/departures.cpp
(departure/arrival board computation), together with proofs about the
claims on its specification.

Conventions of the embedding:
* The circular singly-linked order list of a vehicle is represented as a
  `List Order` with explicit index arithmetic; `order->next == NULL ?
  GetFirstOrder() : order->next` becomes `nextIdx`.
* `DateTicks`/`Ticks` arithmetic is done in `Int` (the source uses int32;
  the sentinel `INT32_MAX` is kept as an explicit constant).
* Walks that can dereference a NULL `Order*` in the source (the
  fall-through after `break` inside the `switch` on
  `departure_conditionals` when `GetOrder(...)` returned NULL) are
  modelled with an explicit crash outcome; the top level returns
  `Option (List Departure)`, `none` meaning the source run has undefined
  behaviour.
* `Departure`/`CallAt` comparison operators live in departures_type.h,
  which is not part of the given sources; they are modelled from the
  spec, see `callAtEq`, `callAtGe`, `depEq`.
-/

namespace Departures

/-- Order kinds, the `OrderType` values that departures.cpp inspects. -/
inductive OType
| gotoStation
| gotoWaypoint
| gotoDepot
| conditional
| implicitOrd
| loading
| otherOrd
deriving DecidableEq, Repr, Inhabited

/-- Unload directives: `OUFB_NO_UNLOAD` and `OUFB_UNLOAD` are the two flags
the source distinguishes, all remaining values behave alike. -/
inductive UnloadKind
| unloadIfPossible
| unloadAll
| transfer
| noUnload
deriving DecidableEq, Repr, Inhabited

/-- Non-stop directives (`OrderNonStopFlags`). -/
inductive NonStopKind
| stopEverywhere
| noStopIntermediate
| noStopDestination
| noStopAny
deriving DecidableEq, Repr, Inhabited

/-- One scheduled order step, with exactly the fields departures.cpp reads:
kind, destination, load/unload/non-stop directives, wait and travel time,
the travel-timetabled flag, the conditional branch target and the depot
halt flag (`GetDepotActionType() & ODATFB_HALT`). -/
structure Order where
  otype : OType
  dest : Nat
  noLoad : Bool
  unload : UnloadKind
  nonStop : NonStopKind
  wait : Nat
  travel : Nat
  travelTT : Bool
  condSkipTo : Nat
  depotHalt : Bool
deriving DecidableEq, Repr, Inhabited

/-- One unit of an articulated vehicle chain, as visited by the cargo
filter loop (`u->cargo_cap`, `IsCargoInClass(u->cargo_type, CC_PASSENGERS)`). -/
structure CargoPart where
  cap : Nat
  isPax : Bool
deriving DecidableEq, Repr, Inhabited

/-- Read-only vehicle snapshot: order list, `cur_implicit_order_index`,
the live `current_order`, `current_order_time`, `lateness_counter`,
the stopped-in-depot flag and the articulated chain. -/
structure Vehicle where
  orders : List Order
  curIndex : Nat
  currentOrder : Order
  currentOrderTime : Int
  lateness : Int
  stoppedInDepot : Bool
  parts : List CargoPart
deriving DecidableEq, Repr, Inhabited

/-- Candidate status tag (`DepartureStatus`). -/
inductive DepartureStatus
| travelling
| arrived
| cancelled
deriving DecidableEq, Repr, Inhabited

/-- Board mode (`DepartureType`). -/
inductive DepartureType
| departure
| arrival
deriving DecidableEq, Repr, Inhabited

/-- The `DAY_TICKS` constant of the source (74 ticks per day). -/
def DAY_TICKS : Int := 74

/-- The `INVALID_STATION` sentinel. -/
def INVALID_STATION : Nat := 65535

/-- The int32 sentinel the simulator writes into a dead candidate. -/
def INT32_MAX : Int := 2147483647

/-- The `_settings_client.gui` fields departures.cpp reads. -/
structure Config where
  maxDepartureTime : Nat
  maxDepartures : Nat
  conditionals : Nat
  showAllStops : Bool
  mergeIdentical : Bool
  smartTerminus : Bool
deriving DecidableEq, Repr, Inhabited

/-- The maximum scheduled date, `max_departure_time * DAY_TICKS`. -/
def Config.maxDate (cfg : Config) : Int := (cfg.maxDepartureTime : Int) * DAY_TICKS

/-- Ambient time state: `_date` and `_date_fract`. -/
structure Env where
  date : Int
  dateFract : Int
deriving DecidableEq, Repr, Inhabited

/-- Current absolute time in ticks, `(DateTicks)_date * DAY_TICKS`. -/
def Env.nowTicks (env : Env) : Int := env.date * DAY_TICKS

/-- A station call: station id plus propagated scheduled date (0 is the
"unknown" sentinel). -/
structure CallAt where
  station : Nat
  scheduledDate : Int
deriving DecidableEq, Repr, Inhabited

/-- A produced board entry (`Departure`), with the fields of the output
record: scheduled date, lateness, status, vehicle, mode, source order,
via station (`INVALID_STATION` when absent), terminus and calling-at list. -/
structure Departure where
  scheduledDate : Int
  lateness : Int
  status : DepartureStatus
  vehicle : Vehicle
  dtype : DepartureType
  order : Order
  via : Nat
  terminus : CallAt
  callingAt : List CallAt
deriving DecidableEq, Repr, Inhabited

/-- A live candidate (`OrderDate`): vehicle, index of its next qualifying
order, expected date, clamped lateness and status. -/
structure OrderDate where
  orderIdx : Nat
  v : Vehicle
  expectedDate : Int
  lateness : Int
  status : DepartureStatus
deriving DecidableEq, Repr, Inhabited

/-- The order a candidate currently points at (`od->order`). -/
def OrderDate.curOrder (od : OrderDate) : Order := od.v.orders.getD od.orderIdx default

/-- Modelled from the spec: `CallAt` equality (departures_type.h is not in
the given sources) compares by station id only. -/
def callAtEq (a b : CallAt) : Bool := a.station == b.station

/-- `SmallVector::Contains` over calling-at entries, using `callAtEq`. -/
def callAtListContains (l : List CallAt) (c : CallAt) : Bool :=
  l.any (fun x => callAtEq x c)

/-- Elementwise equality of calling-at sequences under `callAtEq`. -/
def callAtListEq : List CallAt → List CallAt → Bool
  | [], [] => true
  | a :: as, b :: bs => callAtEq a b && callAtListEq as bs
  | _, _ => false

/-- Modelled from the spec: the terminus shortener's "beyond or at"
comparison on `CallAt` (departures_type.h is not in the given sources):
same station, both scheduled dates known (nonzero), and the left date not
earlier than the right one. -/
def callAtGe (a b : CallAt) : Bool :=
  a.station == b.station && a.scheduledDate != 0 && b.scheduledDate != 0 &&
  decide (b.scheduledDate ≤ a.scheduledDate)

/-- Modelled from the spec: entry equality used by the deduplicator
(departures_type.h is not in the given sources): same type, same scheduled
terminus, same via, same calling-at sequence, same status; the vehicle is
not compared. -/
def depEq (a b : Departure) : Bool :=
  decide (a.dtype = b.dtype) && callAtEq a.terminus b.terminus && a.via == b.via &&
  callAtListEq a.callingAt b.callingAt && decide (a.status = b.status)

/-- Index of the successor order in the circular list
(`order->next == NULL ? GetFirstOrder() : order->next`). -/
def nextIdx (v : Vehicle) (i : Nat) : Nat :=
  if i + 1 = v.orders.length then 0 else i + 1

/-- `IsDeparture` of departures.cpp. -/
def IsDeparture (cfg : Config) (o : Order) (station : Nat) : Bool :=
  decide (o.otype = OType.gotoStation) && o.dest == station &&
  (!o.noLoad || cfg.showAllStops) && o.wait != 0

/-- `IsVia` of departures.cpp. -/
def IsVia (o : Order) (station : Nat) : Bool :=
  (decide (o.otype = OType.gotoStation) || decide (o.otype = OType.gotoWaypoint)) &&
  o.dest == station &&
  (decide (o.nonStop = NonStopKind.noStopAny) || decide (o.nonStop = NonStopKind.noStopDestination))

/-- `IsArrival` of departures.cpp. -/
def IsArrival (cfg : Config) (o : Order) (station : Nat) : Bool :=
  decide (o.otype = OType.gotoStation) && o.dest == station &&
  (decide (o.unload ≠ UnloadKind.noUnload) || cfg.showAllStops) && o.wait != 0

/-- The qualifying-order test used by both the scanner and the advance
step (departures.cpp lines 219-221 and 603-605). -/
def scanQualifies (cfg : Config) (station : Nat) (dtype : DepartureType)
    (showVia : Bool) (o : Order) : Bool :=
  (decide (dtype = DepartureType.departure) && IsDeparture cfg o station) ||
  (decide (dtype = DepartureType.departure) && showVia && IsVia o station) ||
  (decide (dtype = DepartureType.arrival) && IsArrival cfg o station)

/-- Status update of the scanner when moving past a non-qualifying order:
keep `cancelled`, otherwise become `travelling`. -/
def demoteStatus (st : DepartureStatus) : DepartureStatus :=
  if st = DepartureStatus.cancelled then st else DepartureStatus.travelling

/-- Outcome of a walk: a qualifying state, a clean stop, or a crash
(NULL `Order*` dereference in the source). -/
inductive WalkRes (α : Type)
| found : α → WalkRes α
| stop : WalkRes α
| crash : WalkRes α
deriving DecidableEq, Repr

/-- The candidate scanner's walk (departures.cpp lines 166-258).
State: remaining order budget, current order index, running
`start_date` (the current order's travel and wait time are added on
entry to each iteration) and status.  Policy 0 (and any value other
than 1 or 2) falls through the `switch` and processes the conditional
order like a plain order, exactly as the `break` in the source does;
policy 1 with an unresolvable target crashes (the source falls through
to `order->IsType` on NULL). -/
def scanWalk (cfg : Config) (station : Nat) (dtype : DepartureType) (showVia : Bool)
    (v : Vehicle) : Nat → Nat → Int → DepartureStatus → WalkRes (Nat × Int × DepartureStatus)
  | 0, _, _, _ => WalkRes.stop
  | fuel + 1, idx, sd0, st =>
    match v.orders.get? idx with
    | none => WalkRes.crash
    | some o =>
      let sd := sd0 + (o.travel : Int) + (o.wait : Int)
      if cfg.maxDate < sd - v.lateness then WalkRes.stop
      else if o.otype = OType.conditional ∧ cfg.conditionals = 1 then
        match v.orders.get? o.condSkipTo with
        | none => WalkRes.crash
        | some o2 =>
          scanWalk cfg station dtype showVia v fuel o.condSkipTo
            (sd - (o2.travel : Int)) (demoteStatus st)
      else if o.otype = OType.conditional ∧ cfg.conditionals = 2 then
        scanWalk cfg station dtype showVia v fuel (nextIdx v idx) sd (demoteStatus st)
      else if o.otype = OType.implicitOrd then
        scanWalk cfg station dtype showVia v fuel (nextIdx v idx) sd st
      else if o.travel = 0 ∧ o.travelTT = false then WalkRes.stop
      else if scanQualifies cfg station dtype showVia o then
        if sd < 0 ∧ st = DepartureStatus.cancelled then WalkRes.stop
        else WalkRes.found (idx, sd, st)
      else
        scanWalk cfg station dtype showVia v fuel (nextIdx v idx) sd (demoteStatus st)

/-- Whether any articulated part with nonzero capacity carries passenger
class cargo (departures.cpp lines 128-137). -/
def carriesPassengers (v : Vehicle) : Bool :=
  v.parts.any (fun p => decide (0 < p.cap) && p.isPax)

/-- Initial status of a vehicle scan (departures.cpp lines 146-162):
arrived when the current order is a loading order, cancelled when the
vehicle is heading to a depot to halt, travelling otherwise. -/
def scanInitStatus (v : Vehicle) : DepartureStatus :=
  if v.currentOrder.otype = OType.loading then DepartureStatus.arrived
  else if v.currentOrder.otype = OType.gotoDepot ∧ v.currentOrder.depotHalt = true
  then DepartureStatus.cancelled else DepartureStatus.travelling

/-- Initial running date of a vehicle scan (departures.cpp lines 145 and
158-162): `_date_fract - current_order_time`, moved back by the current
list order's travel time plus negative lateness when loading. -/
def scanInitDate (env : Env) (v : Vehicle) (o0 : Order) : Int :=
  if v.currentOrder.otype = OType.loading then
    env.dateFract - v.currentOrderTime - ((o0.travel : Int) +
      (if v.lateness < 0 then v.lateness else 0))
  else env.dateFract - v.currentOrderTime

/-- Candidate record built from a successful walk (departures.cpp lines
227-238): the expected date of an early, not-loading vehicle is moved to
its scheduled date, and the lateness is clamped at zero. -/
def mkScanOd (v : Vehicle) (idx : Nat) (sd : Int) (st : DepartureStatus) : OrderDate :=
  { orderIdx := idx
    v := v
    expectedDate :=
      if v.lateness < 0 ∧ ¬ v.currentOrder.otype = OType.loading
      then sd - v.lateness else sd
    lateness := if 0 < v.lateness then v.lateness else 0
    status := st }

/-- Scan of a single vehicle (departures.cpp lines 127-258): cargo filter,
depot filter, initial status and date, then `scanWalk`; on success the
candidate is built. -/
def scanOne (cfg : Config) (env : Env) (station : Nat) (dtype : DepartureType)
    (showVia : Bool) (showPax : Bool) (showFreight : Bool) (v : Vehicle) :
    WalkRes OrderDate :=
  if showPax ≠ showFreight ∧ carriesPassengers v ≠ showPax then WalkRes.stop
  else
    match v.orders.get? (v.curIndex % v.orders.length) with
    | none => WalkRes.stop
    | some o0 =>
      if v.stoppedInDepot then WalkRes.stop
      else
        match scanWalk cfg station dtype showVia v v.orders.length
            (v.curIndex % v.orders.length) (scanInitDate env v o0) (scanInitStatus v) with
        | WalkRes.crash => WalkRes.crash
        | WalkRes.stop => WalkRes.stop
        | WalkRes.found (idx, sd, st) => WalkRes.found (mkScanOd v idx sd st)

/-- Tie-break adjustment: in arrival mode the source order's wait time is
subtracted from the selection key. -/
def odWaitAdj (dtype : DepartureType) (od : OrderDate) : Int :=
  if dtype = DepartureType.arrival then (od.curOrder.wait : Int) else 0

/-- The selection key `expected_date - lateness - (arrival ? wait : 0)`. -/
def odKey (dtype : DepartureType) (od : OrderDate) : Int :=
  od.expectedDate - od.lateness - odWaitAdj dtype od

/-- Append a freshly scanned candidate and update the running least
pointer (departures.cpp lines 240-247): the new candidate wins only when
its key is strictly smaller. -/
def pushOd (dtype : DepartureType) (acc : List OrderDate) (least : Option Nat)
    (od : OrderDate) : List OrderDate × Option Nat :=
  let i := acc.length
  let least' :=
    match least with
    | none => some i
    | some li =>
      match acc.get? li with
      | none => some li
      | some lod => if odKey dtype od < odKey dtype lod then some i else some li
  (acc ++ [od], least')

/-- Inputs of `MakeDepartureList`: station, per-type visibility flags,
the vehicle-roster lookup results (one optional list per vehicle type,
`none` modelling a failed `GenerateVehicleSortList`), mode, via flag and
cargo-class flags. -/
structure Args where
  station : Nat
  showTypes : List Bool
  rosters : List (Option (List Vehicle))
  dtype : DepartureType
  showVia : Bool
  showPax : Bool
  showFreight : Bool
deriving Repr, Inhabited

/-- Outcome of the scan phase: the collected candidates with the least
index, an abort (roster lookup failed, the function returns the empty
result), or a crash. -/
inductive ScanPhaseRes
| ok : List OrderDate → Option Nat → ScanPhaseRes
| abort : ScanPhaseRes
| crash : ScanPhaseRes
deriving Repr

/-- Scan of one roster list of vehicles, accumulating candidates and the
running least index; a crashing vehicle scan aborts the whole run. -/
def scanVehList (cfg : Config) (env : Env) (args : Args) :
    List Vehicle → List OrderDate → Option Nat → Option (List OrderDate × Option Nat)
  | [], acc, least => some (acc, least)
  | v :: vs, acc, least =>
    match scanOne cfg env args.station args.dtype args.showVia args.showPax args.showFreight v with
    | WalkRes.crash => none
    | WalkRes.stop => scanVehList cfg env args vs acc least
    | WalkRes.found od =>
      let p := pushOd args.dtype acc least od
      scanVehList cfg env args vs p.1 p.2

/-- The loop over the four vehicle types (departures.cpp lines 110-260):
skipped types contribute nothing, a failed roster lookup returns the
empty result immediately. -/
def scanTypes (cfg : Config) (env : Env) (args : Args) :
    List Nat → List OrderDate → Option Nat → ScanPhaseRes
  | [], acc, least => ScanPhaseRes.ok acc least
  | i :: rest, acc, least =>
    if args.showTypes.getD i false = false then scanTypes cfg env args rest acc least
    else
      match args.rosters.getD i none with
      | none => ScanPhaseRes.abort
      | some vs =>
        match scanVehList cfg env args vs acc least with
        | none => ScanPhaseRes.crash
        | some (acc', least') => scanTypes cfg env args rest acc' least'

/-- Materialization of the least candidate into a fresh board entry
(departures.cpp lines 286-292); via, terminus and calling-at start from
the defaults of a fresh `Departure`. -/
def materialize (env : Env) (dtype : DepartureType) (od : OrderDate) : Departure :=
  { scheduledDate := env.nowTicks + od.expectedDate - od.lateness
    lateness := od.lateness
    status := od.status
    vehicle := od.v
    dtype := dtype
    order := od.curOrder
    via := INVALID_STATION
    terminus := { station := INVALID_STATION, scheduledDate := 0 }
    callingAt := [] }

/-- Candidate-via recording rule of the terminus resolver (departures.cpp
lines 361-367): a go-to-station order with a non-stop directive records
its destination as the candidate via while no via is finalized. -/
def termCandidateVia (o : Order) (dvia : Nat) (cvia : Nat) : Nat :=
  if (o.nonStop = NonStopKind.noStopAny ∨ o.nonStop = NonStopKind.noStopDestination) ∧
      o.otype = OType.gotoStation ∧ dvia = INVALID_STATION
  then o.dest else cvia

/-- Via finalization rule of the terminus resolver (departures.cpp lines
400-402), applied when a calling-at order is appended: the via becomes the
order's destination when it matches the candidate via and no via is
finalized yet. -/
def termFinalizeVia (o : Order) (dvia : Nat) (cvia : Nat) : Nat :=
  if dvia = INVALID_STATION ∧ cvia = o.dest then o.dest else dvia

/-- The terminus/via resolver loop for departure mode (departures.cpp
lines 310-420).  State: remaining budget, current index, running `CallAt`
accumulator, candidate via and the entry being filled in.  Returns
`none` on the NULL-dereference fall-through, otherwise the
`found_terminus` flag and the updated entry. -/
def termLoop (cfg : Config) (station : Nat) (v : Vehicle) (startIdx : Nat) :
    Nat → Nat → CallAt → Nat → Departure → Option (Bool × Departure)
  | 0, _, _, _, d => some (false, d)
  | fuel + 1, idx, c, cvia, d =>
    if idx = startIdx then some (decide (0 < d.callingAt.length), d)
    else
      match v.orders.get? idx with
      | none => none
      | some o =>
        if o.otype = OType.conditional ∧ cfg.conditionals = 1 then
          match v.orders.get? o.condSkipTo with
          | none => none
          | some _ => termLoop cfg station v startIdx fuel o.condSkipTo c cvia d
        else if o.otype = OType.conditional ∧ cfg.conditionals = 2 then
          termLoop cfg station v startIdx fuel (nextIdx v idx) c cvia d
        else if o.otype = OType.gotoStation ∧ o.dest = station ∧
            (o.unload ≠ UnloadKind.noUnload ∨ cfg.showAllStops = true) ∧
            o.nonStop ≠ NonStopKind.noStopAny ∧ o.nonStop ≠ NonStopKind.noStopDestination then
          some (decide (0 < d.callingAt.length), d)
        else
          let cvia' := termCandidateVia o d.via cvia
          let cd : Int :=
            if c.scheduledDate ≠ 0 ∧ (o.travel ≠ 0 ∨ o.travelTT = true)
            then c.scheduledDate + (o.travel : Int) else 0
          let c' : CallAt := { station := o.dest, scheduledDate := cd }
          if (o.unload = UnloadKind.noUnload ∧ cfg.showAllStops = false) ∨
              (o.otype ≠ OType.gotoStation ∧ o.otype ≠ OType.implicitOrd) ∨
              o.nonStop = NonStopKind.noStopAny ∨ o.nonStop = NonStopKind.noStopDestination then
            termLoop cfg station v startIdx fuel (nextIdx v idx)
              { station := c'.station, scheduledDate := c'.scheduledDate + (o.wait : Int) } cvia' d
          else if callAtListContains d.callingAt c' then
            some (true, d)
          else
            let d1 :=
              if (o.otype = OType.gotoStation ∨ o.otype = OType.implicitOrd) ∧
                  o.nonStop ≠ NonStopKind.noStopAny ∧ o.nonStop ≠ NonStopKind.noStopDestination then
                { d with
                  via := termFinalizeVia o d.via cvia'
                  terminus := c'
                  callingAt := d.callingAt ++ [c'] }
              else d
            if o.otype = OType.gotoStation ∧ o.unload = UnloadKind.unloadAll then
              some (decide (0 < d1.callingAt.length), d1)
            else
              termLoop cfg station v startIdx fuel (nextIdx v idx)
                { station := c'.station, scheduledDate := c'.scheduledDate + (o.wait : Int) } cvia' d1

/-- Departure-mode resolver entry point (departures.cpp lines 310-318):
start at the order after the departure order, with the accumulator seeded
from that order's destination and the entry's scheduled date. -/
def resolveDeparture (cfg : Config) (station : Nat) (v : Vehicle) (startIdx : Nat)
    (d : Departure) : Option (Bool × Departure) :=
  let i0 := nextIdx v startIdx
  let o0 := v.orders.getD i0 default
  termLoop cfg station v startIdx v.orders.length i0
    { station := o0.dest, scheduledDate := d.scheduledDate } INVALID_STATION d

/-- Collision scan of the origin resolver (departures.cpp lines 486-501):
walking from `i` to the target order, a full-unload order or another
visit to the candidate origin's destination or to the station is a
collision. -/
def collideScan (station : Nat) (v : Vehicle) (stopIdx : Nat) (originDest : Nat) :
    Nat → Nat → Bool
  | 0, _ => false
  | fuel + 1, i =>
    if i = stopIdx then false
    else
      let o := v.orders.getD i default
      if o.unload = UnloadKind.unloadAll then true
      else if (o.otype = OType.gotoStation ∨ o.otype = OType.implicitOrd) ∧
          (o.dest = originDest ∨ o.dest = station) then true
      else collideScan station v stopIdx originDest fuel (nextIdx v i)

/-- Origin search of the arrival resolver (departures.cpp lines 473-511):
the first load-qualifying stop with a destination other than the station
whose forward scan to the target meets no collision. -/
def originScan (cfg : Config) (station : Nat) (v : Vehicle) (stopIdx : Nat) :
    Nat → Nat → Option Nat
  | 0, _ => none
  | fuel + 1, i =>
    if i = stopIdx then none
    else
      let o := v.orders.getD i default
      if (o.noLoad = false ∨ cfg.showAllStops = true) ∧
          (o.otype = OType.gotoStation ∨ o.otype = OType.implicitOrd) ∧ o.dest ≠ station then
        if collideScan station v stopIdx o.dest v.orders.length (nextIdx v i) then
          originScan cfg station v stopIdx fuel (nextIdx v i)
        else some i
      else originScan cfg station v stopIdx fuel (nextIdx v i)

/-- Calling-at collection of the arrival resolver (departures.cpp lines
515-523): every load-qualifying go-to-station order strictly between the
origin and the target, as plain station ids. -/
def arrivalCalls (cfg : Config) (station : Nat) (v : Vehicle) (stopIdx : Nat) :
    Nat → Nat → List CallAt → List CallAt
  | 0, _, acc => acc
  | fuel + 1, i, acc =>
    if i = stopIdx then acc
    else
      let o := v.orders.getD i default
      if o.otype = OType.gotoStation ∧ (o.noLoad = false ∨ cfg.showAllStops = true) then
        arrivalCalls cfg station v stopIdx fuel (nextIdx v i)
          (acc ++ [{ station := o.dest, scheduledDate := 0 }])
      else arrivalCalls cfg station v stopIdx fuel (nextIdx v i) acc

/-- Arrival-mode resolver (departures.cpp lines 465-542): adjust the
scheduled date to the arrival time, find the origin, collect the
calling-at list and repurpose the terminus for the origin; `none` when no
origin is found (the entry is discarded). -/
def resolveArrival (cfg : Config) (station : Nat) (v : Vehicle) (startIdx : Nat)
    (d : Departure) : Option Departure :=
  let o := v.orders.getD startIdx default
  let d0 := { d with scheduledDate := d.scheduledDate - (o.wait : Int) }
  match originScan cfg station v startIdx v.orders.length (nextIdx v startIdx) with
  | none => none
  | some oi =>
    let od := v.orders.getD oi default
    some { d0 with
      callingAt := arrivalCalls cfg station v startIdx v.orders.length (nextIdx v oi) []
      terminus := { station := od.dest, scheduledDate := 0 } }

/-- Whether the entry is suppressed by the deduplicator (departures.cpp
lines 424-433). -/
def isDuplicate (cfg : Config) (res : List Departure) (d : Departure) : Bool :=
  cfg.mergeIdentical && res.any (fun e => depEq d e)

/-- Inner loop of the terminus shortener (departures.cpp lines 441-452):
walk the new entry's calling-at list from the end; each time the earlier
entry's current terminus is beyond or at the examined call (and the
earlier entry has at least two calls), replace the terminus by the
earlier entry's call at position `k`, stopping at position 0. -/
def shortenStep (dFirst : Departure) : List CallAt → CallAt → Nat → CallAt
  | [], term, _ => term
  | c :: rest, term, k =>
    if callAtGe term c = true ∧ 2 ≤ dFirst.callingAt.length then
      let term' := dFirst.callingAt.getD k { station := INVALID_STATION, scheduledDate := 0 }
      if k = 0 then term'
      else shortenStep dFirst rest term' (k - 1)
    else shortenStep dFirst rest term k

/-- The terminus shortener applied to one earlier entry (departures.cpp
lines 439-453). -/
def shortenOne (d : Departure) (dFirst : Departure) : Departure :=
  { dFirst with
    terminus := shortenStep dFirst d.callingAt.reverse dFirst.terminus
      (dFirst.callingAt.length - 2) }

/-- Display correction after a successful departure insertion
(departures.cpp lines 456-461): a late, not-yet-arrived vehicle is shown
by arrival time, so the source order's wait time is taken off the
lateness. -/
def lateAdjust (d : Departure) (srcWait : Nat) : Departure :=
  if d.status ≠ DepartureStatus.arrived ∧ 0 < d.lateness
  then { d with lateness := d.lateness - (srcWait : Int) } else d

/-- The advance step's qualifying-order search (departures.cpp lines
556-613).  State: remaining budget, current index and running expected
date, which on entry already includes the current order's travel and wait
time; an implicit order is skipped without adding the successor's times
(the successor is examined with the implicit order's running date), and a
conditional taken branch adds only the target's wait time. -/
def advanceWalk (cfg : Config) (station : Nat) (dtype : DepartureType) (showVia : Bool)
    (v : Vehicle) (lateness : Int) : Nat → Nat → Int → WalkRes (Nat × Int)
  | 0, _, _ => WalkRes.stop
  | fuel + 1, idx, e =>
    match v.orders.get? idx with
    | none => WalkRes.crash
    | some o =>
      if o.otype = OType.conditional ∧ cfg.conditionals = 1 then
        match v.orders.get? o.condSkipTo with
        | none => WalkRes.crash
        | some o2 =>
          advanceWalk cfg station dtype showVia v lateness fuel o.condSkipTo
            (e + (o2.wait : Int))
      else if o.otype = OType.conditional ∧ cfg.conditionals = 2 then
        let idx' := nextIdx v idx
        let o2 := v.orders.getD idx' default
        advanceWalk cfg station dtype showVia v lateness fuel idx'
          (e + (o2.travel : Int) + (o2.wait : Int))
      else if o.otype = OType.implicitOrd then
        advanceWalk cfg station dtype showVia v lateness fuel (nextIdx v idx) e
      else if o.travel = 0 ∧ o.travelTT = false then WalkRes.stop
      else if cfg.maxDate < e - lateness then WalkRes.stop
      else if scanQualifies cfg station dtype showVia o then WalkRes.found (idx, e)
      else
        let idx' := nextIdx v idx
        let o2 := v.orders.getD idx' default
        advanceWalk cfg station dtype showVia v lateness fuel idx'
          (e + (o2.travel : Int) + (o2.wait : Int))

/-- Status fix after an advance (departures.cpp lines 623-626): the
vehicle cannot already have arrived at a stop it has not reached. -/
def demoteArrived (od : OrderDate) : OrderDate :=
  if od.status = DepartureStatus.arrived then { od with status := DepartureStatus.travelling } else od

/-- Advancing the materialized candidate to its next qualifying order
(departures.cpp lines 545-626): step past the used order, add the new
order's travel and wait time, run the search; on failure the expected
date becomes the `INT32_MAX` tombstone and the order pointer is left on
the used order. -/
def advanceOd (cfg : Config) (station : Nat) (dtype : DepartureType) (showVia : Bool)
    (od : OrderDate) : Option OrderDate :=
  let v := od.v
  let i0 := nextIdx v od.orderIdx
  let o0 := v.orders.getD i0 default
  let e0 := od.expectedDate + (o0.travel : Int) + (o0.wait : Int)
  match advanceWalk cfg station dtype showVia v od.lateness v.orders.length i0 e0 with
  | WalkRes.crash => none
  | WalkRes.found (idx, e) => some (demoteArrived { od with orderIdx := idx, expectedDate := e })
  | WalkRes.stop => some (demoteArrived { od with expectedDate := INT32_MAX })

/-- Recomputation of the least candidate (departures.cpp lines 629-643):
a linear pass in which a candidate displaces the current least when its
adjusted key is strictly smaller and its unadjusted key is below the
horizon. -/
def recomputeLeast (cfg : Config) (dtype : DepartureType) (ods : List OrderDate)
    (startIdx : Nat) : Nat :=
  (List.range ods.length).foldl
    (fun li i =>
      match ods.get? li, ods.get? i with
      | some lod, some od =>
        if odKey dtype od < odKey dtype lod ∧
            od.expectedDate - od.lateness < cfg.maxDate then i else li
      | _, _ => li)
    startIdx

/-- State of the simulator loop: accumulated result, the candidate pool
and the index of the current least candidate. -/
structure SimState where
  result : List Departure
  nextOrders : List OrderDate
  leastIdx : Nat
deriving Repr, Inhabited

/-- Outcome of one simulator iteration. -/
inductive StepRes
| more : SimState → StepRes
| done : List Departure → StepRes
| crash : StepRes
deriving Repr

/-- The mode-specific resolution and insertion of a materialized entry
(departures.cpp lines 297-543): terminus or origin resolution,
deduplication, terminus shortening and the lateness display correction;
`none` on the NULL-dereference fall-through of the terminus resolver. -/
def insertStep (cfg : Config) (args : Args) (res : List Departure) (least : OrderDate)
    (d0 : Departure) : Option (List Departure) :=
  if args.dtype = DepartureType.departure then
    match resolveDeparture cfg args.station least.v least.orderIdx d0 with
    | none => none
    | some (false, _) => some res
    | some (true, d1) =>
      if isDuplicate cfg res d1 then some res
      else
        let base :=
          if cfg.smartTerminus = true ∧ args.dtype = DepartureType.departure
          then res.map (shortenOne d1) else res
        some (base ++ [lateAdjust d1 least.curOrder.wait])
  else
    match resolveArrival cfg args.station least.v least.orderIdx d0 with
    | none => some res
    | some d1 =>
      if isDuplicate cfg res d1 then some res
      else some (res ++ [d1])

/-- One iteration of the main loop (departures.cpp lines 269-644):
termination checks, materialization, mode-specific resolution with
deduplication, terminus shortening and lateness display correction, the
advance of the used candidate and the recomputation of the least. -/
def simStep (cfg : Config) (env : Env) (args : Args) (s : SimState) : StepRes :=
  match s.nextOrders.get? s.leastIdx with
  | none => StepRes.done s.result
  | some least =>
    if cfg.maxDepartures ≤ s.result.length ∨
        cfg.maxDate < least.expectedDate - least.lateness then
      StepRes.done s.result
    else
      match insertStep cfg args s.result least (materialize env args.dtype least) with
      | none => StepRes.crash
      | some res' =>
        match advanceOd cfg args.station args.dtype args.showVia least with
        | none => StepRes.crash
        | some od' =>
          let ods' := s.nextOrders.set s.leastIdx od'
          StepRes.more
            { result := res'
              nextOrders := ods'
              leastIdx := recomputeLeast cfg args.dtype ods' s.leastIdx }

/-- The fueled main loop; the source bounds it by 10000 iterations. -/
def simLoop (cfg : Config) (env : Env) (args : Args) :
    Nat → SimState → Option (List Departure)
  | 0, s => some s.result
  | fuel + 1, s =>
    match simStep cfg env args s with
    | StepRes.done r => some r
    | StepRes.crash => none
    | StepRes.more s' => simLoop cfg env args fuel s'

/-- The top-level function (departures.cpp lines 83-648).  Returns
`none` when the source run dereferences a NULL order (undefined
behaviour), otherwise the produced list. -/
def MakeDepartureList (cfg : Config) (env : Env) (args : Args) :
    Option (List Departure) :=
  if args.showPax = false ∧ args.showFreight = false then some []
  else
    match scanTypes cfg env args [0, 1, 2, 3] [] none with
    | ScanPhaseRes.abort => some []
    | ScanPhaseRes.crash => none
    | ScanPhaseRes.ok ods least =>
      match least with
      | none => some []
      | some li => simLoop cfg env args 10000 { result := [], nextOrders := ods, leastIdx := li }

/-!
Concrete instances used by counterexamples and witnesses.
-/

/-- A plain go-to-station order with the given destination, wait and
travel time, timetabled, loading and unloading allowed. -/
def exStOrder (dest wait travel : Nat) : Order :=
  { otype := OType.gotoStation, dest := dest, noLoad := false,
    unload := UnloadKind.unloadIfPossible, nonStop := NonStopKind.stopEverywhere,
    wait := wait, travel := travel, travelTT := true, condSkipTo := 0, depotHalt := false }

/-- An implicit order. -/
def exImpOrder (dest : Nat) : Order :=
  { exStOrder dest 0 0 with otype := OType.implicitOrd, travelTT := false }

/-- A conditional order with the given branch target. -/
def exCondOrder (skip : Nat) : Order :=
  { exStOrder 0 0 0 with otype := OType.conditional, travelTT := false, condSkipTo := skip }

/-- A go-to-station order that unloads everything (a terminus order). -/
def exTermOrder (dest wait travel : Nat) : Order :=
  { exStOrder dest wait travel with unload := UnloadKind.unloadAll }

/-- A non-stop (via) order. -/
def exNSOrder (dest travel : Nat) : Order :=
  { exStOrder dest 0 travel with nonStop := NonStopKind.noStopDestination }

/-- A punctual vehicle sitting at the start of the given order list. -/
def exVehicle (os : List Order) : Vehicle :=
  { orders := os,
    curIndex := 0,
    currentOrder := os.getD 0 default,
    currentOrderTime := 0,
    lateness := 0,
    stoppedInDepot := false,
    parts := [{ cap := 1, isPax := true }] }

/-- A baseline configuration with a large horizon. -/
def exConfig : Config :=
  { maxDepartureTime := 1000,
    maxDepartures := 10,
    conditionals := 0,
    showAllStops := false,
    mergeIdentical := false,
    smartTerminus := false }

/-- Time zero. -/
def exEnv : Env := { date := 0, dateFract := 0 }

/-- Arguments showing trains only, from a single roster list. -/
def exArgs (st : Nat) (vs : List Vehicle) (t : DepartureType) : Args :=
  { station := st,
    showTypes := [true, false, false, false],
    rosters := [some vs, none, none, none],
    dtype := t,
    showVia := false,
    showPax := true,
    showFreight := true }

/-- Vehicle of the C1 counterexample: an arrival at station 1 (wait 10),
then a stop at 2, an implicit order, a second arrival at station 1
(wait 100) and a stop at 4. -/
def exVehC1 : Vehicle :=
  exVehicle [exStOrder 1 10 5, exStOrder 2 0 3, exImpOrder 3, exStOrder 1 100 7, exStOrder 4 0 2]

/-- Configuration of the C1 counterexample. -/
def exCfgC1 : Config := { exConfig with maxDepartureTime := 100, maxDepartures := 2 }

/-- Vehicle of the C2 counterexample: one tick late, wait time 10 at the
departure station. -/
def exVehC2 : Vehicle :=
  { exVehicle [exStOrder 1 10 60, exTermOrder 2 0 5] with lateness := 1 }

/-- Configuration of the C2 counterexample: a horizon of one day. -/
def exCfgC2 : Config := { exConfig with maxDepartureTime := 1 }

/-- Vehicles of the C4 counterexample: four departures from station 9,
with calling patterns [1,2], [2], [1,2] and [3,2]. -/
def exVehD1 : Vehicle :=
  exVehicle [exStOrder 9 5 5, exStOrder 1 0 10, exTermOrder 2 0 10]

def exVehD2 : Vehicle :=
  exVehicle [exStOrder 9 15 5, exTermOrder 2 0 5]

def exVehD3 : Vehicle :=
  exVehicle [exStOrder 9 25 5, exStOrder 1 0 10, exTermOrder 2 0 10]

def exVehD4 : Vehicle :=
  exVehicle [exStOrder 9 33 5, exStOrder 3 0 1, exTermOrder 2 0 4]

/-- Configuration of the C4 counterexample: deduplication and smart
terminus both on. -/
def exCfgC4 : Config :=
  { exConfig with maxDepartures := 4, mergeIdentical := true, smartTerminus := true }

/-- Vehicle of the C5 counterexample: an implicit order with nonzero
travel and wait time followed by a departure order. -/
def exVehC5 : Vehicle :=
  exVehicle [{ exImpOrder 5 with travel := 1, wait := 1 }, exStOrder 1 5 5]

/-- Vehicle of the C5 witness: a conditional order jumping over a filler
to a departure order. -/
def exVehC5w : Vehicle :=
  exVehicle [{ exCondOrder 2 with travel := 3, wait := 4 }, exStOrder 8 1 1, exStOrder 1 5 7]

/-- Vehicle of the C6 failing input: a single conditional order whose
branch target (5) is out of range. -/
def exVehC6 : Vehicle := exVehicle [exCondOrder 5]

/-- Configuration of the C6 failing input: branch policy TakeBranch. -/
def exCfgC6 : Config := { exConfig with conditionals := 1 }

/-- Vehicle of the C8 counterexample: departure from 9, two consecutive
non-stop orders to station 1, then a terminus at 2. -/
def exVehC8 : Vehicle :=
  exVehicle [exStOrder 9 5 5, exNSOrder 1 5, exNSOrder 1 5, exTermOrder 2 0 5]

/-- Configuration of the C8 counterexample. -/
def exCfgC8 : Config := { exConfig with maxDepartures := 1 }

/-- Vehicle of the C7 witness: heading to a depot with a halt action. -/
def exVehC7 : Vehicle :=
  { exVehicle [exStOrder 1 10 5, exTermOrder 2 0 5] with
    currentOrder := { exStOrder 0 0 0 with otype := OType.gotoDepot, depotHalt := true } }

/-- The spec's Scenario A vehicle: a three-stop loop. -/
def exVehA : Vehicle :=
  exVehicle [exStOrder 1 5 10, exStOrder 2 10 10, exStOrder 3 5 10]

/-- A configuration with `max_departures = 0`. -/
def exCfgZero : Config := { exConfig with maxDepartures := 0 }

/-- The result list of the C2 counterexample run. -/
def exResC2 : List Departure :=
  (MakeDepartureList exCfgC2 exEnv (exArgs 1 [exVehC2] DepartureType.departure)).getD []

/-- A configuration with merging on and the terminus shortener off. -/
def exCfgC4n : Config := { exConfig with maxDepartures := 2, mergeIdentical := true }

/-- Two vehicles departing from station 9 towards different termini. -/
def exVehE1 : Vehicle := exVehicle [exStOrder 9 5 5, exTermOrder 1 0 5]

def exVehE2 : Vehicle := exVehicle [exStOrder 9 15 5, exTermOrder 2 0 5]

/-- The result list of the two-vehicle run with merging on and the
shortener off. -/
def exResC4n : List Departure :=
  (MakeDepartureList exCfgC4n exEnv
    (exArgs 9 [exVehE1, exVehE2] DepartureType.departure)).getD []

/-- Configuration for the C7 witness run. -/
def exCfgC7 : Config := { exConfig with maxDepartures := 2 }

/-- The candidate the scanner builds for the C7 witness vehicle. -/
def exOdC7 : OrderDate :=
  { orderIdx := 0, v := exVehC7, expectedDate := 15, lateness := 0,
    status := DepartureStatus.cancelled }

/-- The result list of the C7 witness run. -/
def exResC7 : List Departure :=
  (MakeDepartureList exCfgC7 exEnv (exArgs 1 [exVehC7] DepartureType.departure)).getD []

/-- Invariant of the departure-mode monotonicity argument: the scheduled
dates accumulated so far are sorted, every accumulated entry is bounded by
the current least candidate's key, the tracked least candidate is minimal
among the below-horizon candidates, and every candidate's lateness keeps
the `INT32_MAX` tombstone above the horizon. -/
abbrev monoInv (cfg : Config) (env : Env) (s : SimState) : Prop :=
  List.Chain' (fun a b : Int => a ≤ b) (s.result.map Departure.scheduledDate) ∧
  (∀ lo, s.nextOrders.get? s.leastIdx = some lo →
    (∀ e ∈ s.result, e.scheduledDate ≤ env.nowTicks + (lo.expectedDate - lo.lateness)) ∧
    (∀ od ∈ s.nextOrders, od.expectedDate - od.lateness < cfg.maxDate →
      lo.expectedDate - lo.lateness ≤ od.expectedDate - od.lateness)) ∧
  (∀ od ∈ s.nextOrders, od.lateness + cfg.maxDate < INT32_MAX)

/-- Configuration of the C1 witness run: two departures. -/
def exCfgC1w : Config := { exConfig with maxDepartures := 2 }

/-- The result list of the C1 witness run. -/
def exResC1w : List Departure :=
  (MakeDepartureList exCfgC1w exEnv (exArgs 2 [exVehA] DepartureType.departure)).getD []

/-!
Theorems.
-/

/-- C10: with both cargo-class flags off, `MakeDepartureList` returns the
empty list immediately, for every station, mode, configuration and
roster lookup: the result does not depend on the roster at all. -/
theorem C10_empty (cfg : Config) (env : Env) (station : Nat) (showTypes : List Bool)
    (rosters : List (Option (List Vehicle))) (dtype : DepartureType) (showVia : Bool) :
    MakeDepartureList cfg env
      { station := station, showTypes := showTypes, rosters := rosters,
        dtype := dtype, showVia := showVia, showPax := false, showFreight := false } =
      some [] := rfl

/-- C9: the terminus shortener pass changes nothing but the terminus
field: each entry keeps its scheduled date, lateness, status, vehicle,
type, source order, via and calling-at sequence, and the pass maps each
position of the earlier-entry list to the shortened entry at the same
position, so it neither reorders, inserts nor removes entries. -/
theorem C9_shortener_frame (d e : Departure) (res : List Departure) (n : Nat) :
    (shortenOne d e).scheduledDate = e.scheduledDate ∧
    (shortenOne d e).lateness = e.lateness ∧
    (shortenOne d e).status = e.status ∧
    (shortenOne d e).vehicle = e.vehicle ∧
    (shortenOne d e).dtype = e.dtype ∧
    (shortenOne d e).order = e.order ∧
    (shortenOne d e).via = e.via ∧
    (shortenOne d e).callingAt = e.callingAt ∧
    (res.map (shortenOne d)).length = res.length ∧
    (res.map (shortenOne d))[n]? = (res[n]?).map (shortenOne d) := by
  refine ⟨rfl, rfl, rfl, rfl, rfl, rfl, rfl, rfl, ?_, ?_⟩
  · exact List.length_map res (shortenOne d)
  · simp

/-- C6: at the failing input (a conditional order whose branch target is
out of range, under policy TakeBranch), the source does not abandon just
the affected vehicle's candidate: the `break` after the NULL check only
exits the `switch`, and execution falls through to `order->IsType` on a
NULL pointer; the embedding records this run as undefined behaviour. -/
theorem C6_crash :
    MakeDepartureList exCfgC6 exEnv (exArgs 1 [exVehC6] DepartureType.departure) = none := rfl

/-- C1 counterexample: in arrival mode the concrete run produces two
entries whose insertion-time selection keys are 5 and then -82, a strictly
decreasing pair.  An entry's insertion-time key equals
`scheduledDate - nowTicks`: for departures the scheduled date is
`now + expected - lateness` and the key is `expected - lateness`; for
arrivals both are additionally reduced by the source order's wait time.
The drop comes from the advance walk skipping an implicit order without
adding the successor's travel and wait time, so the second arrival is
keyed 100 ticks too early. -/
theorem C1_counterexample :
    (MakeDepartureList exCfgC1 exEnv (exArgs 1 [exVehC1] DepartureType.arrival)).map
      (fun r => r.map (fun d => d.scheduledDate - exEnv.nowTicks)) = some [5, -82] ∧
    ¬ List.Chain' (fun a b : Int => a ≤ b) [5, -82] := by
  constructor
  · rfl
  · norm_num [List.chain'_cons]

/-- C2 counterexample: the concrete run returns exactly one entry and its
returned fields violate `scheduled_date - lateness <= now + max_horizon`:
the entry is inserted with scheduled date 69 and lateness 1 (within the
horizon 74), but the display correction then lowers the lateness by the
source order's wait time 10, making `scheduled_date - lateness = 78`. -/
theorem C2_counterexample :
    (MakeDepartureList exCfgC2 exEnv (exArgs 1 [exVehC2] DepartureType.departure)).map
      (fun r => r.map (fun d =>
        decide (d.scheduledDate - d.lateness ≤ exEnv.nowTicks + exCfgC2.maxDate))) =
      some [false] := rfl

/-- C4 counterexample: with `merge_identical` and `smart_terminus` both
enabled, the concrete run returns four entries of which the first and the
third are identical under the deduplication equality: both were distinct
when inserted, but two later terminus-shortener passes moved both their
displayed termini to station 1. -/
theorem C4_counterexample :
    exCfgC4.mergeIdentical = true ∧
    (MakeDepartureList exCfgC4 exEnv
        (exArgs 9 [exVehD1, exVehD2, exVehD3, exVehD4] DepartureType.departure)).map
      (fun r => (r.length,
        match r[0]?, r[2]? with
        | some a, some b => depEq a b
        | _, _ => false)) = some (4, true) := by
  exact ⟨rfl, rfl⟩

/-- C5 counterexample: from equal starting states the two walks compute
different running dates.  Both walks examine order 0 (an implicit order
with travel 1 and wait 1) with running date 2: the scanner walk is given
the pre-addition date 0 and adds the order's travel and wait time on
entry, while the advance walk is given 2 directly.  Both skip to order 1,
a qualifying departure with travel 5 and wait 5; the scanner reports it
with running date 12, the advance walk with running date 2, because its
implicit-order skip does not add the successor's travel and wait time. -/
theorem C5_counterexample :
    scanWalk exConfig 1 DepartureType.departure false exVehC5 2 0 0 DepartureStatus.travelling =
      WalkRes.found (1, 12, DepartureStatus.travelling) ∧
    advanceWalk exConfig 1 DepartureType.departure false exVehC5 0 2 0 2 =
      WalkRes.found (1, 2) ∧
    (12 : Int) ≠ 2 := by
  refine ⟨rfl, rfl, by decide⟩

/-- C8 counterexample: in the concrete run the vehicle passes station 1
twice in a row with a non-stop directive.  The first non-stop order
records candidate via 1; the second non-stop order's destination matches
that recorded candidate via while no via is finalized, so the claim
requires the via to be finalized to station 1, yet the produced entry has
no via at all (the code only finalizes the via at a calling-at order). -/
theorem C8_counterexample :
    termCandidateVia (exNSOrder 1 5) INVALID_STATION INVALID_STATION = 1 ∧
    exVehC8.orders[2]? = some (exNSOrder 1 5) ∧
    (exNSOrder 1 5).nonStop = NonStopKind.noStopDestination ∧
    (exNSOrder 1 5).dest = 1 ∧
    (MakeDepartureList exCfgC8 exEnv (exArgs 9 [exVehC8] DepartureType.departure)).map
      (fun r => r.map (fun d => d.via)) = some [INVALID_STATION] := by
  refine ⟨rfl, rfl, rfl, rfl, rfl⟩

/-- C5 amended: at a conditional order met under policy TakeBranch with a
resolvable target, the two walks are net-equivalent even though the
bookkeeping differs: the scanner walk continues at the branch target with
the running date lowered by the target's travel time (which its next
iteration adds back together with the target's wait time), while the
advance walk continues at the branch target with the target's wait time
added; so when the walks examine the conditional order at equal running
dates, they also examine the branch target at equal running dates.  The
walks are not equivalent in general (see the implicit-order skip). -/
theorem C5_amended_condstep (cfg : Config) (station : Nat) (dtype : DepartureType)
    (showVia : Bool) (v : Vehicle) (lat : Int) (fuel idx : Nat) (sd e : Int)
    (st : DepartureStatus) (c t : Order)
    (hc : v.orders.get? idx = some c)
    (hk : c.otype = OType.conditional)
    (hp : cfg.conditionals = 1)
    (ht : v.orders.get? c.condSkipTo = some t)
    (hh : ¬ (cfg.maxDate < sd + (c.travel : Int) + (c.wait : Int) - v.lateness)) :
    scanWalk cfg station dtype showVia v (fuel + 1) idx sd st =
      scanWalk cfg station dtype showVia v fuel c.condSkipTo
        (sd + (c.travel : Int) + (c.wait : Int) - (t.travel : Int)) (demoteStatus st) ∧
    advanceWalk cfg station dtype showVia v lat (fuel + 1) idx e =
      advanceWalk cfg station dtype showVia v lat fuel c.condSkipTo (e + (t.wait : Int)) ∧
    (sd + (c.travel : Int) + (c.wait : Int) - (t.travel : Int)) + (t.travel : Int) + (t.wait : Int) =
      (sd + (c.travel : Int) + (c.wait : Int)) + (t.wait : Int) := by
  rw [List.get?_eq_getElem?] at hc ht
  refine ⟨?_, ?_, by ring⟩
  · simp [scanWalk, hc, hk, hp, ht, hh]
  · simp [advanceWalk, hc, hk, hp, ht]

/-- Witness for the amended C5 theorem at a concrete conditional order. -/
theorem C5_amended_condstep_witness :
    scanWalk exCfgC6 1 DepartureType.departure false exVehC5w 3 0 0 DepartureStatus.travelling =
      scanWalk exCfgC6 1 DepartureType.departure false exVehC5w 2 2
        (0 + ((3 : Nat) : Int) + ((4 : Nat) : Int) - ((7 : Nat) : Int))
        (demoteStatus DepartureStatus.travelling) ∧
    advanceWalk exCfgC6 1 DepartureType.departure false exVehC5w 0 3 0 9 =
      advanceWalk exCfgC6 1 DepartureType.departure false exVehC5w 0 2 2
        (9 + ((5 : Nat) : Int)) ∧
    (0 + ((3 : Nat) : Int) + ((4 : Nat) : Int) - ((7 : Nat) : Int)) + ((7 : Nat) : Int) +
        ((5 : Nat) : Int) =
      (0 + ((3 : Nat) : Int) + ((4 : Nat) : Int)) + ((5 : Nat) : Int) :=
  C5_amended_condstep exCfgC6 1 DepartureType.departure false exVehC5w 0 2 0 0 9
    DepartureStatus.travelling ({ exCondOrder 2 with travel := 3, wait := 4 }) (exStOrder 1 5 7)
    rfl rfl rfl rfl (by decide)

/-- C8 amended: the candidate-via rule and the finalization rule as the
code implements them.  While no via is finalized, a go-to-station order
with a non-stop directive records its destination as the candidate via
(each such order overwrites the previous record, so the candidate via is
the most recent one); the via is finalized when a calling-at order's
destination matches the recorded candidate via and no via is finalized
yet (`termFinalizeVia` is applied by `termLoop` exactly in the branch
that appends a calling-at entry); once a via is finalized, neither rule
fires again.  A non-stop order never finalizes the via. -/
theorem C8_amended_via_rules (o oc : Order) (cvia dvia : Nat)
    (h1 : o.nonStop = NonStopKind.noStopAny ∨ o.nonStop = NonStopKind.noStopDestination)
    (h2 : o.otype = OType.gotoStation)
    (h3 : cvia = oc.dest)
    (h4 : dvia ≠ INVALID_STATION) :
    termCandidateVia o INVALID_STATION cvia = o.dest ∧
    termFinalizeVia oc INVALID_STATION cvia = oc.dest ∧
    termCandidateVia o dvia cvia = cvia ∧
    termFinalizeVia oc dvia cvia = dvia := by
  refine ⟨?_, ?_, ?_, ?_⟩
  · simp [termCandidateVia, h1, h2]
  · simp [termFinalizeVia, h3]
  · simp [termCandidateVia, h4]
  · simp [termFinalizeVia, h4]

/-- Witness for the amended C8 theorem at concrete orders. -/
theorem C8_amended_via_rules_witness :
    termCandidateVia (exNSOrder 1 5) INVALID_STATION 1 = 1 ∧
    termFinalizeVia (exStOrder 1 0 5) INVALID_STATION 1 = 1 ∧
    termCandidateVia (exNSOrder 1 5) 2 1 = 1 ∧
    termFinalizeVia (exStOrder 1 0 5) 2 1 = 2 :=
  C8_amended_via_rules (exNSOrder 1 5) (exStOrder 1 0 5) 1 2
    (Or.inr rfl) rfl rfl (by decide)

/-!
Helper lemmas about the building blocks of the simulator step.
-/

/-- `shortenOne` changes at most the terminus. -/
lemma shortenOne_frame (d e : Departure) :
    (shortenOne d e).scheduledDate = e.scheduledDate ∧
    (shortenOne d e).lateness = e.lateness ∧
    (shortenOne d e).status = e.status ∧
    (shortenOne d e).order = e.order ∧
    (shortenOne d e).dtype = e.dtype ∧
    (shortenOne d e).via = e.via ∧
    (shortenOne d e).callingAt = e.callingAt :=
  ⟨rfl, rfl, rfl, rfl, rfl, rfl, rfl⟩

/-- `lateAdjust` changes at most the lateness. -/
lemma lateAdjust_frame (d : Departure) (w : Nat) :
    (lateAdjust d w).scheduledDate = d.scheduledDate ∧
    (lateAdjust d w).status = d.status ∧
    (lateAdjust d w).order = d.order ∧
    (lateAdjust d w).dtype = d.dtype ∧
    (lateAdjust d w).via = d.via ∧
    (lateAdjust d w).terminus = d.terminus ∧
    (lateAdjust d w).callingAt = d.callingAt := by
  unfold lateAdjust
  split <;> exact ⟨rfl, rfl, rfl, rfl, rfl, rfl, rfl⟩

/-- `lateAdjust` either keeps the lateness or lowers it by the wait. -/
lemma lateAdjust_lateness (d : Departure) (w : Nat) :
    (lateAdjust d w).lateness = d.lateness ∨
    (lateAdjust d w).lateness = d.lateness - (w : Int) := by
  unfold lateAdjust
  split
  · exact Or.inr rfl
  · exact Or.inl rfl

/-- The terminus resolver loop modifies only via, terminus and
calling-at of the entry. -/
lemma termLoop_frame (cfg : Config) (station : Nat) (v : Vehicle) (startIdx : Nat) :
    ∀ (fuel idx : Nat) (c : CallAt) (cvia : Nat) (d : Departure) (b : Bool) (d' : Departure),
      termLoop cfg station v startIdx fuel idx c cvia d = some (b, d') →
      d'.scheduledDate = d.scheduledDate ∧ d'.lateness = d.lateness ∧
      d'.status = d.status ∧ d'.order = d.order ∧ d'.dtype = d.dtype ∧
      d'.vehicle = d.vehicle := by
  intro fuel
  induction fuel with
  | zero =>
    intro idx c cvia d b d' h
    simp only [termLoop, Option.some.injEq, Prod.mk.injEq] at h
    rcases h with ⟨-, rfl⟩
    exact ⟨rfl, rfl, rfl, rfl, rfl, rfl⟩
  | succ n ih =>
    intro idx c cvia d b d' h
    simp only [termLoop] at h
    repeat' split at h
    all_goals first
      | (simp only [Option.some.injEq, Prod.mk.injEq] at h; rcases h with ⟨-, rfl⟩;
         exact ⟨rfl, rfl, rfl, rfl, rfl, rfl⟩)
      | (have hrec := ih _ _ _ _ _ _ h; exact hrec)
      | simp at h

/-- The departure-mode resolver modifies only via, terminus and
calling-at of the entry. -/
lemma resolveDeparture_frame (cfg : Config) (station : Nat) (v : Vehicle) (startIdx : Nat)
    (d : Departure) (b : Bool) (d' : Departure)
    (h : resolveDeparture cfg station v startIdx d = some (b, d')) :
    d'.scheduledDate = d.scheduledDate ∧ d'.lateness = d.lateness ∧
    d'.status = d.status ∧ d'.order = d.order ∧ d'.dtype = d.dtype ∧
    d'.vehicle = d.vehicle := by
  have hrec := termLoop_frame cfg station v startIdx _ _ _ _ _ _ _ h
  exact hrec

/-- The arrival-mode resolver shifts the scheduled date back by the
target order's wait time and modifies only calling-at and terminus
otherwise. -/
lemma resolveArrival_frame (cfg : Config) (station : Nat) (v : Vehicle) (startIdx : Nat)
    (d : Departure) (d' : Departure)
    (h : resolveArrival cfg station v startIdx d = some d') :
    d'.scheduledDate = d.scheduledDate - ((v.orders.getD startIdx default).wait : Int) ∧
    d'.lateness = d.lateness ∧ d'.status = d.status ∧ d'.order = d.order ∧
    d'.dtype = d.dtype ∧ d'.vehicle = d.vehicle := by
  unfold resolveArrival at h
  split at h
  · simp at h
  · simp only [Option.some.injEq] at h
    subst h
    exact ⟨rfl, rfl, rfl, rfl, rfl, rfl⟩

/-- Fields of a freshly materialized entry. -/
lemma materialize_fields (env : Env) (dtype : DepartureType) (od : OrderDate) :
    (materialize env dtype od).scheduledDate =
      env.nowTicks + od.expectedDate - od.lateness ∧
    (materialize env dtype od).lateness = od.lateness ∧
    (materialize env dtype od).status = od.status ∧
    (materialize env dtype od).order = od.curOrder ∧
    (materialize env dtype od).dtype = dtype :=
  ⟨rfl, rfl, rfl, rfl, rfl⟩

/-- Shape of a successful insertion step: either nothing was inserted, or
exactly one entry was appended after the (possibly shortened) previous
entries; the appended entry comes from a resolver run on the materialized
entry that passed the duplicate check. -/
lemma insertStep_shape (cfg : Config) (args : Args) (res : List Departure)
    (least : OrderDate) (d0 : Departure) (r' : List Departure)
    (h : insertStep cfg args res least d0 = some r') :
    r' = res ∨
    ∃ d1 dn,
      r' = (if cfg.smartTerminus = true ∧ args.dtype = DepartureType.departure
            then res.map (shortenOne d1) else res) ++ [dn] ∧
      ((args.dtype = DepartureType.departure ∧ dn = lateAdjust d1 least.curOrder.wait ∧
          d1.scheduledDate = d0.scheduledDate) ∨
        (args.dtype = DepartureType.arrival ∧ dn = d1 ∧
          d1.scheduledDate = d0.scheduledDate - ((least.curOrder).wait : Int))) ∧
      isDuplicate cfg res d1 = false ∧
      d1.lateness = d0.lateness ∧ d1.status = d0.status ∧ d1.order = d0.order ∧
      d1.dtype = d0.dtype := by
  unfold insertStep at h
  split at h
  · -- departure mode
    rename_i hdt
    split at h
    · simp at h
    · -- resolver found no terminus
      simp only [Option.some.injEq] at h
      exact Or.inl h.symm
    · -- resolver found a terminus
      rename_i heq
      split at h
      · simp only [Option.some.injEq] at h
        exact Or.inl h.symm
      · rename_i hdup
        simp only [Option.some.injEq] at h
        subst h
        rename_i d1
        have hf := resolveDeparture_frame cfg args.station least.v least.orderIdx d0 true d1 heq
        exact Or.inr ⟨d1, _, rfl, Or.inl ⟨hdt, rfl, hf.1⟩, by simpa using hdup,
          hf.2.1, hf.2.2.1, hf.2.2.2.1, hf.2.2.2.2.1⟩
  · -- arrival mode
    rename_i hdt
    have hdt2 : args.dtype = DepartureType.arrival := by
      cases hx : args.dtype
      · exact absurd hx hdt
      · rfl
    split at h
    · simp only [Option.some.injEq] at h
      exact Or.inl h.symm
    · rename_i d1 heq
      split at h
      · simp only [Option.some.injEq] at h
        exact Or.inl h.symm
      · rename_i hdup
        simp only [Option.some.injEq] at h
        subst h
        have hf := resolveArrival_frame cfg args.station least.v least.orderIdx d0 d1 heq
        have hsm : ¬ (cfg.smartTerminus = true ∧ args.dtype = DepartureType.departure) :=
          fun hx => hdt hx.2
        refine Or.inr ⟨d1, d1, ?_, Or.inr ⟨hdt2, rfl, hf.1⟩, by simpa using hdup,
          hf.2.1, hf.2.2.1, hf.2.2.2.1, hf.2.2.2.2.1⟩
        rw [if_neg hsm]

/-- A `done` outcome of the simulator step returns the accumulated
result unchanged. -/
lemma simStep_done_eq (cfg : Config) (env : Env) (args : Args) (s : SimState)
    (r : List Departure) (h : simStep cfg env args s = StepRes.done r) :
    r = s.result := by
  unfold simStep at h
  repeat' split at h
  all_goals first
    | (injection h with h1; exact h1.symm)
    | simp at h

/-- Shape of a `more` outcome of the simulator step. -/
lemma simStep_more_shape (cfg : Config) (env : Env) (args : Args) (s s' : SimState)
    (h : simStep cfg env args s = StepRes.more s') :
    ∃ least od',
      s.nextOrders.get? s.leastIdx = some least ∧
      ¬ (cfg.maxDepartures ≤ s.result.length ∨
          cfg.maxDate < least.expectedDate - least.lateness) ∧
      insertStep cfg args s.result least (materialize env args.dtype least) = some s'.result ∧
      advanceOd cfg args.station args.dtype args.showVia least = some od' ∧
      s'.nextOrders = s.nextOrders.set s.leastIdx od' ∧
      s'.leastIdx = recomputeLeast cfg args.dtype s'.nextOrders s.leastIdx := by
  unfold simStep at h
  split at h
  · simp at h
  · rename_i least hleast
    split at h
    · simp at h
    · rename_i hguard
      split at h
      · simp at h
      · rename_i res' hins
        split at h
        · simp at h
        · rename_i od' hadv
          injection h with h1
          subst h1
          exact ⟨least, od', hleast, hguard, hins, hadv, rfl, rfl⟩

/-- Generic invariant argument over the fueled simulator loop. -/
lemma simLoop_inv (cfg : Config) (env : Env) (args : Args)
    (P : SimState → Prop) (Q : List Departure → Prop)
    (hmore : ∀ s s', P s → simStep cfg env args s = StepRes.more s' → P s')
    (hbase : ∀ s, P s → Q s.result) :
    ∀ (fuel : Nat) (s : SimState) (res : List Departure),
      P s → simLoop cfg env args fuel s = some res → Q res := by
  intro fuel
  induction fuel with
  | zero =>
    intro s res hP h
    simp only [simLoop, Option.some.injEq] at h
    exact h ▸ hbase s hP
  | succ n ih =>
    intro s res hP h
    simp only [simLoop] at h
    cases hs : simStep cfg env args s with
    | done r =>
      rw [hs] at h
      simp only [Option.some.injEq] at h
      rw [← h]
      exact simStep_done_eq cfg env args s r hs ▸ hbase s hP
    | crash =>
      rw [hs] at h
      simp at h
    | more s' =>
      rw [hs] at h
      exact ih s' res (hmore s s' hP hs) h

/-- The simulator step preserves the result-length bound. -/
lemma simStep_length_inv (cfg : Config) (env : Env) (args : Args) (s s' : SimState)
    (hP : s.result.length ≤ cfg.maxDepartures)
    (hs : simStep cfg env args s = StepRes.more s') :
    s'.result.length ≤ cfg.maxDepartures := by
  obtain ⟨least, od', hleast, hguard, hins, -, -, -⟩ := simStep_more_shape cfg env args s s' hs
  rcases insertStep_shape cfg args s.result least (materialize env args.dtype least) s'.result hins with
    hsame | ⟨d1, dn, hr, -⟩
  · rw [hsame]; exact hP
  · rw [hr]
    have hb : (if cfg.smartTerminus = true ∧ args.dtype = DepartureType.departure
        then s.result.map (shortenOne d1) else s.result).length = s.result.length := by
      split <;> simp
    have hlt : s.result.length < cfg.maxDepartures := by
      rcases Nat.lt_or_ge s.result.length cfg.maxDepartures with hx | hx
      · exact hx
      · exact absurd (Or.inl hx) hguard
    simp only [List.length_append, hb, List.length_singleton]
    omega

/-- C3: every returned list respects the `max_departures` bound, and in
particular `max_departures = 0` forces an empty result regardless of the
vehicles. -/
theorem C3_length_bound (cfg : Config) (env : Env) (args : Args) (res : List Departure)
    (h : MakeDepartureList cfg env args = some res) :
    res.length ≤ cfg.maxDepartures ∧ (cfg.maxDepartures = 0 → res = []) := by
  have hlen : res.length ≤ cfg.maxDepartures := by
    unfold MakeDepartureList at h
    split at h
    · simp only [Option.some.injEq] at h; rw [← h]; simp
    · split at h
      · simp only [Option.some.injEq] at h; rw [← h]; simp
      · simp at h
      · split at h
        · simp only [Option.some.injEq] at h; rw [← h]; simp
        · exact simLoop_inv cfg env args
            (fun s => s.result.length ≤ cfg.maxDepartures)
            (fun r => r.length ≤ cfg.maxDepartures)
            (fun s s' => simStep_length_inv cfg env args s s')
            (fun s hP => hP) 10000 _ res (by simp) h
  refine ⟨hlen, fun h0 => ?_⟩
  rw [h0] at hlen
  exact List.eq_nil_of_length_eq_zero (Nat.le_zero.mp hlen)

/-- Witness for C3 at a concrete run with `max_departures = 0` and one
vehicle serving the station. -/
theorem C3_length_bound_witness :
    ([] : List Departure).length ≤ exCfgZero.maxDepartures ∧
    (exCfgZero.maxDepartures = 0 → ([] : List Departure) = []) :=
  C3_length_bound exCfgZero exEnv (exArgs 2 [exVehA] DepartureType.departure) [] rfl

/-- The simulator step preserves the horizon bound on scheduled dates. -/
lemma simStep_horizon_inv (cfg : Config) (env : Env) (args : Args) (s s' : SimState)
    (hP : ∀ e ∈ s.result, e.scheduledDate ≤ env.nowTicks + cfg.maxDate)
    (hs : simStep cfg env args s = StepRes.more s') :
    ∀ e ∈ s'.result, e.scheduledDate ≤ env.nowTicks + cfg.maxDate := by
  obtain ⟨least, od', hleast, hguard, hins, -, -, -⟩ := simStep_more_shape cfg env args s s' hs
  have hkey : least.expectedDate - least.lateness ≤ cfg.maxDate := by
    rcases le_or_lt (least.expectedDate - least.lateness) cfg.maxDate with hx | hx
    · exact hx
    · exact absurd (Or.inr hx) hguard
  rcases insertStep_shape cfg args s.result least (materialize env args.dtype least) s'.result hins with
    hsame | ⟨d1, dn, hr, hmode, -⟩
  · rw [hsame]; exact hP
  · intro e he
    rw [hr] at he
    rcases List.mem_append.mp he with hbase | hlast
    · split at hbase
      · obtain ⟨a, ha, rfl⟩ := List.mem_map.mp hbase
        rw [(shortenOne_frame d1 a).1]
        exact hP a ha
      · exact hP e hbase
    · have he1 : e = dn := by simpa using hlast
      have hd0 : (materialize env args.dtype least).scheduledDate ≤ env.nowTicks + cfg.maxDate := by
        have hm : (materialize env args.dtype least).scheduledDate =
            env.nowTicks + least.expectedDate - least.lateness := rfl
        rw [hm]; omega
      have hw : (0 : Int) ≤ (least.curOrder.wait : Int) := Int.ofNat_nonneg _
      rcases hmode with ⟨-, hxdn, hxs⟩ | ⟨-, hxdn, hxs⟩
      · rw [he1, hxdn, (lateAdjust_frame d1 least.curOrder.wait).1, hxs]; exact hd0
      · rw [he1, hxdn, hxs]; omega

/-- C2 amended: every returned entry's scheduled date is within the
horizon, `scheduled_date <= now + max_horizon_ticks`.  The claimed bound
with the returned lateness subtracted fails (see the counterexample)
because a late departure's lateness is reduced by the source order's wait
time after the horizon check; the scheduled date itself is fixed at
insertion, where `expected_date - lateness <= max_date` is enforced. -/
theorem C2_amended_horizon (cfg : Config) (env : Env) (args : Args) (res : List Departure)
    (h : MakeDepartureList cfg env args = some res) :
    ∀ e ∈ res, e.scheduledDate ≤ env.nowTicks + cfg.maxDate := by
  unfold MakeDepartureList at h
  split at h
  · simp only [Option.some.injEq] at h; rw [← h]; simp
  · split at h
    · simp only [Option.some.injEq] at h; rw [← h]; simp
    · simp at h
    · split at h
      · simp only [Option.some.injEq] at h; rw [← h]; simp
      · exact simLoop_inv cfg env args
          (fun s => ∀ e ∈ s.result, e.scheduledDate ≤ env.nowTicks + cfg.maxDate)
          (fun r => ∀ e ∈ r, e.scheduledDate ≤ env.nowTicks + cfg.maxDate)
          (fun s s' => simStep_horizon_inv cfg env args s s')
          (fun s hP => hP) 10000 _ res (by simp) h

/-- Witness for the amended C2 theorem: the single entry of the C2
counterexample run satisfies the amended bound. -/
theorem C2_amended_horizon_witness :
    (exResC2.getD 0 default).scheduledDate ≤ exEnv.nowTicks + exCfgC2.maxDate :=
  C2_amended_horizon exCfgC2 exEnv (exArgs 1 [exVehC2] DepartureType.departure) exResC2 rfl
    (exResC2.getD 0 default) (by decide)

/-- `callAtEq` is symmetric. -/
lemma callAtEq_symm (a b : CallAt) : callAtEq a b = callAtEq b a := by
  unfold callAtEq
  by_cases h : a.station = b.station
  · rw [h]
  · have h2 : ¬ b.station = a.station := fun hh => h hh.symm
    simp [h, h2]

/-- `callAtListEq` is symmetric. -/
lemma callAtListEq_symm : ∀ (l1 l2 : List CallAt), callAtListEq l1 l2 = callAtListEq l2 l1
  | [], [] => rfl
  | [], _ :: _ => rfl
  | _ :: _, [] => rfl
  | a :: as, b :: bs => by
    simp only [callAtListEq]
    rw [callAtEq_symm, callAtListEq_symm as bs]

/-- The deduplication equality is symmetric. -/
lemma depEq_symm (a b : Departure) : depEq a b = depEq b a := by
  unfold depEq
  have h1 : decide (a.dtype = b.dtype) = decide (b.dtype = a.dtype) :=
    decide_eq_decide.mpr ⟨Eq.symm, Eq.symm⟩
  have h2 : decide (a.status = b.status) = decide (b.status = a.status) :=
    decide_eq_decide.mpr ⟨Eq.symm, Eq.symm⟩
  have h3 : (a.via == b.via) = (b.via == a.via) := by
    by_cases h : a.via = b.via
    · rw [h]
    · have h2' : ¬ b.via = a.via := fun hh => h hh.symm
      simp [h, h2']
  rw [callAtEq_symm, callAtListEq_symm, h1, h2, h3]

/-- The deduplication equality depends only on type, terminus, via,
calling-at and status of its right argument. -/
lemma depEq_congr_left (a a' b : Departure)
    (h1 : a'.dtype = a.dtype) (h2 : a'.terminus = a.terminus) (h3 : a'.via = a.via)
    (h4 : a'.callingAt = a.callingAt) (h5 : a'.status = a.status) :
    depEq b a' = depEq b a := by
  unfold depEq
  rw [h1, h2, h3, h4, h5]

/-- A negative duplicate check with merging on means the new entry equals
no existing entry. -/
lemma isDuplicate_false (cfg : Config) (res : List Departure) (d : Departure)
    (hm : cfg.mergeIdentical = true) (h : isDuplicate cfg res d = false) :
    ∀ e ∈ res, depEq d e = false := by
  intro e he
  unfold isDuplicate at h
  rw [hm, Bool.true_and] at h
  have hx := List.any_eq_false.mp h e he
  exact Bool.eq_false_iff.mpr hx

/-- With merging on and the terminus shortener inactive, the simulator
step preserves pairwise distinctness of the result. -/
lemma simStep_nodup_inv (cfg : Config) (env : Env) (args : Args) (s s' : SimState)
    (hm : cfg.mergeIdentical = true)
    (hsm : cfg.smartTerminus = false ∨ args.dtype = DepartureType.arrival)
    (hP : List.Pairwise (fun a b => depEq a b = false) s.result)
    (hs : simStep cfg env args s = StepRes.more s') :
    List.Pairwise (fun a b => depEq a b = false) s'.result := by
  obtain ⟨least, od', hleast, hguard, hins, -, -, -⟩ := simStep_more_shape cfg env args s s' hs
  rcases insertStep_shape cfg args s.result least (materialize env args.dtype least) s'.result hins with
    hsame | ⟨d1, dn, hr, hmode, hdup, -⟩
  · rw [hsame]; exact hP
  · have hbase : (if cfg.smartTerminus = true ∧ args.dtype = DepartureType.departure
        then s.result.map (shortenOne d1) else s.result) = s.result := by
      rw [if_neg]
      rintro ⟨h1, h2⟩
      rcases hsm with hx | hx
      · rw [hx] at h1; exact absurd h1 (by simp)
      · rw [hx] at h2; exact absurd h2 (by decide)
    rw [hr, hbase]
    rw [List.pairwise_append]
    refine ⟨hP, List.pairwise_singleton _ _, ?_⟩
    intro a ha b hb
    have hb1 : b = dn := by simpa using hb
    rw [hb1]
    have hda : depEq d1 a = false := isDuplicate_false cfg s.result d1 hm hdup a ha
    have hfields : depEq a dn = depEq a d1 := by
      rcases hmode with ⟨-, hxdn, -⟩ | ⟨-, hxdn, -⟩
      · rw [hxdn]
        exact depEq_congr_left d1 (lateAdjust d1 least.curOrder.wait) a
          (lateAdjust_frame _ _).2.2.2.1 (lateAdjust_frame _ _).2.2.2.2.2.1
          (lateAdjust_frame _ _).2.2.2.2.1 (lateAdjust_frame _ _).2.2.2.2.2.2
          (lateAdjust_frame _ _).2.1
      · rw [hxdn]
    rw [hfields, depEq_symm, hda]

/-- C4 amended: whenever the terminus shortener does not run (it is
disabled, or the mode is Arrival, where the source never runs it), the
returned list contains no two entries that are identical under the
deduplication equality.  With the shortener enabled in departure mode the
claim fails (see the counterexample): the shortener mutates the displayed
terminus of already-accepted entries after their duplicate checks, and
two entries that were distinct when inserted can become identical. -/
theorem C4_amended_nodup (cfg : Config) (env : Env) (args : Args) (res : List Departure)
    (hm : cfg.mergeIdentical = true)
    (hsm : cfg.smartTerminus = false ∨ args.dtype = DepartureType.arrival)
    (h : MakeDepartureList cfg env args = some res) :
    List.Pairwise (fun a b => depEq a b = false) res := by
  unfold MakeDepartureList at h
  split at h
  · simp only [Option.some.injEq] at h; rw [← h]; simp
  · split at h
    · simp only [Option.some.injEq] at h; rw [← h]; simp
    · simp at h
    · split at h
      · simp only [Option.some.injEq] at h; rw [← h]; simp
      · exact simLoop_inv cfg env args
          (fun s => List.Pairwise (fun a b => depEq a b = false) s.result)
          (fun r => List.Pairwise (fun a b => depEq a b = false) r)
          (fun s s' => simStep_nodup_inv cfg env args s s' hm hsm)
          (fun s hP => hP) 10000 _ res (by simp) h

/-- Witness for the amended C4 theorem: a two-vehicle run with merging
on and the shortener off yields a pairwise distinct list. -/
theorem C4_amended_nodup_witness :
    List.Pairwise (fun a b => depEq a b = false) exResC4n :=
  C4_amended_nodup exCfgC4n exEnv
    (exArgs 9 [exVehE1, exVehE2] DepartureType.departure) exResC4n
    rfl (Or.inl rfl) rfl

/-- A successful scanner walk keeps a cancelled status, and never reports
a cancelled candidate with a negative running date (the source breaks out
before building such a candidate). -/
lemma scanWalk_cancel (cfg : Config) (station : Nat) (dtype : DepartureType) (showVia : Bool)
    (v : Vehicle) :
    ∀ (fuel idx : Nat) (sd : Int) (st : DepartureStatus) (idx' : Nat) (sd' : Int)
      (st' : DepartureStatus),
      scanWalk cfg station dtype showVia v fuel idx sd st = WalkRes.found (idx', sd', st') →
      (st = DepartureStatus.cancelled → st' = DepartureStatus.cancelled) ∧
      (st' = DepartureStatus.cancelled → 0 ≤ sd') := by
  intro fuel
  induction fuel with
  | zero => intro idx sd st idx' sd' st' h; simp [scanWalk] at h
  | succ n ih =>
    intro idx sd st idx' sd' st' h
    simp only [scanWalk] at h
    repeat' split at h
    all_goals first
      | (rename_i hneg
         simp only [WalkRes.found.injEq, Prod.mk.injEq] at h
         rcases h with ⟨-, rfl, rfl⟩
         refine ⟨fun hc => hc, fun hc => ?_⟩
         by_contra hx
         exact hneg ⟨by omega, hc⟩)
      | (have hrec := ih _ _ _ _ _ _ h
         exact ⟨fun hc => hrec.1 (by simp [demoteStatus, hc]), hrec.2⟩)
      | simp at h

/-- Properties of a scanned candidate: it references its vehicle, its
lateness is the clamped lateness counter, a cancelled candidate has a
nonnegative expected date, and a vehicle heading to a depot to halt gets
a cancelled candidate. -/
lemma scanOne_found_props (cfg : Config) (env : Env) (station : Nat) (dtype : DepartureType)
    (showVia : Bool) (showPax showFreight : Bool) (v : Vehicle) (od : OrderDate)
    (h : scanOne cfg env station dtype showVia showPax showFreight v = WalkRes.found od) :
    od.v = v ∧
    od.lateness = (if 0 < v.lateness then v.lateness else 0) ∧
    (od.status = DepartureStatus.cancelled → 0 ≤ od.expectedDate) ∧
    (v.currentOrder.otype = OType.gotoDepot ∧ v.currentOrder.depotHalt = true →
      od.status = DepartureStatus.cancelled) := by
  unfold scanOne at h
  split at h
  · simp at h
  · split at h
    · simp at h
    · rename_i o0 heq0
      split at h
      · simp at h
      · split at h
        · simp at h
        · simp at h
        · rename_i idx sd st heqw
          simp only [WalkRes.found.injEq] at h
          subst h
          have hw := scanWalk_cancel cfg station dtype showVia v _ _ _ _ _ _ _ heqw
          refine ⟨rfl, rfl, ?_, ?_⟩
          · intro hc
            have hsd := hw.2 hc
            unfold mkScanOd
            simp only
            split
            · rename_i hearly
              have hlt : v.lateness < 0 := hearly.1
              omega
            · exact hsd
          · intro hv
            apply hw.1
            unfold scanInitStatus
            rw [if_neg (by rw [hv.1]; decide), if_pos hv]

/-- The advance walk never decreases the running date. -/
lemma advanceWalk_found_ge (cfg : Config) (station : Nat) (dtype : DepartureType)
    (showVia : Bool) (v : Vehicle) (lat : Int) :
    ∀ (fuel idx : Nat) (e : Int) (i' : Nat) (e' : Int),
      advanceWalk cfg station dtype showVia v lat fuel idx e = WalkRes.found (i', e') →
      e ≤ e' := by
  intro fuel
  induction fuel with
  | zero => intro idx e i' e' h; simp [advanceWalk] at h
  | succ n ih =>
    intro idx e i' e' h
    simp only [advanceWalk] at h
    repeat' split at h
    all_goals first
      | (simp only [WalkRes.found.injEq, Prod.mk.injEq] at h
         rcases h with ⟨-, rfl⟩
         exact le_refl _)
      | (have hrec := ih _ _ _ _ h; omega)
      | simp at h

/-- The advance step preserves the nonnegativity of cancelled
candidates' expected dates, and does not change vehicle or lateness. -/
lemma advanceOd_cancel (cfg : Config) (station : Nat) (dtype : DepartureType)
    (showVia : Bool) (od od' : OrderDate)
    (h : advanceOd cfg station dtype showVia od = some od')
    (h0 : od.status = DepartureStatus.cancelled → 0 ≤ od.expectedDate) :
    (od'.status = DepartureStatus.cancelled → 0 ≤ od'.expectedDate) ∧
    od'.lateness = od.lateness ∧ od'.v = od.v := by
  simp only [advanceOd] at h
  split at h
  · simp at h
  · rename_i idx e heqw
    simp only [Option.some.injEq] at h
    subst h
    have hge := advanceWalk_found_ge cfg station dtype showVia od.v od.lateness _ _ _ _ _ heqw
    have he0 : (0 : Int) ≤ ((od.v.orders.getD (nextIdx od.v od.orderIdx) default).travel : Int) +
        ((od.v.orders.getD (nextIdx od.v od.orderIdx) default).wait : Int) := by positivity
    unfold demoteArrived
    split
    · exact ⟨fun hc => by simp at hc, rfl, rfl⟩
    · refine ⟨fun hc => ?_, rfl, rfl⟩
      have := h0 hc
      simp only at hge ⊢
      omega
  · simp only [Option.some.injEq] at h
    subst h
    unfold demoteArrived
    have hpos : (0 : Int) ≤ INT32_MAX := by norm_num [INT32_MAX]
    split
    · exact ⟨fun hc => by simp at hc, rfl, rfl⟩
    · exact ⟨fun _ => hpos, rfl, rfl⟩

/-- Every candidate accumulated by the per-roster scan comes from the
initial accumulator or from a successful `scanOne` on one of the
vehicles. -/
lemma scanVehList_mem (cfg : Config) (env : Env) (args : Args) :
    ∀ (vs : List Vehicle) (acc : List OrderDate) (least : Option Nat)
      (acc' : List OrderDate) (least' : Option Nat),
      scanVehList cfg env args vs acc least = some (acc', least') →
      ∀ od ∈ acc', od ∈ acc ∨ ∃ v ∈ vs,
        scanOne cfg env args.station args.dtype args.showVia args.showPax args.showFreight v =
          WalkRes.found od := by
  intro vs
  induction vs with
  | nil =>
    intro acc least acc' least' h od hod
    simp only [scanVehList, Option.some.injEq, Prod.mk.injEq] at h
    exact Or.inl (h.1 ▸ hod)
  | cons v vs ih =>
    intro acc least acc' least' h od hod
    simp only [scanVehList] at h
    split at h
    · simp at h
    · rcases ih _ _ _ _ h od hod with hx | ⟨v2, hv2, hs2⟩
      · exact Or.inl hx
      · exact Or.inr ⟨v2, List.mem_cons_of_mem _ hv2, hs2⟩
    · rename_i od0 heq0
      rcases ih _ _ _ _ h od hod with hx | ⟨v2, hv2, hs2⟩
      · rcases (by simpa [pushOd] using hx : od ∈ acc ∨ od = od0) with ha | hb
        · exact Or.inl ha
        · exact Or.inr ⟨v, List.mem_cons_self _ _, hb ▸ heq0⟩
      · exact Or.inr ⟨v2, List.mem_cons_of_mem _ hv2, hs2⟩

/-- Every candidate produced by the scan phase comes from the initial
accumulator or from a successful `scanOne` on some rostered vehicle. -/
lemma scanTypes_mem (cfg : Config) (env : Env) (args : Args) :
    ∀ (l : List Nat) (acc : List OrderDate) (least : Option Nat)
      (ods : List OrderDate) (least' : Option Nat),
      scanTypes cfg env args l acc least = ScanPhaseRes.ok ods least' →
      ∀ od ∈ ods, od ∈ acc ∨ ∃ i vs v, args.rosters.getD i none = some vs ∧ v ∈ vs ∧
        scanOne cfg env args.station args.dtype args.showVia args.showPax args.showFreight v =
          WalkRes.found od := by
  intro l
  induction l with
  | nil =>
    intro acc least ods least' h od hod
    simp only [scanTypes, ScanPhaseRes.ok.injEq] at h
    exact Or.inl (h.1 ▸ hod)
  | cons i rest ih =>
    intro acc least ods least' h od hod
    simp only [scanTypes] at h
    split at h
    · exact ih _ _ _ _ h od hod
    · split at h
      · simp at h
      · rename_i vs heqr
        split at h
        · simp at h
        · rename_i acc2 least2 heqv
          rcases ih _ _ _ _ h od hod with hx | hfound
          · rcases scanVehList_mem cfg env args vs acc least acc2 least2 heqv od hx with
              hy | ⟨v2, hv2, hs2⟩
            · exact Or.inl hy
            · exact Or.inr ⟨i, vs, v2, heqr, hv2, hs2⟩
          · exact Or.inr hfound

/-- The simulator step preserves the cancelled-entry invariant: cancelled
pool candidates keep nonnegative expected dates, and every cancelled
entry of the result keeps a nonnegative raw start date, expressed through
the returned fields as `now <= scheduled + lateness + wait`. -/
lemma simStep_cancel_inv (cfg : Config) (env : Env) (args : Args) (s s' : SimState)
    (hP : (∀ e ∈ s.result, e.status = DepartureStatus.cancelled →
             env.nowTicks ≤ e.scheduledDate + e.lateness + (e.order.wait : Int)) ∧
          (∀ od ∈ s.nextOrders, od.status = DepartureStatus.cancelled → 0 ≤ od.expectedDate))
    (hs : simStep cfg env args s = StepRes.more s') :
    (∀ e ∈ s'.result, e.status = DepartureStatus.cancelled →
       env.nowTicks ≤ e.scheduledDate + e.lateness + (e.order.wait : Int)) ∧
    (∀ od ∈ s'.nextOrders, od.status = DepartureStatus.cancelled → 0 ≤ od.expectedDate) := by
  obtain ⟨least, od', hleast, hguard, hins, hadv, hset, -⟩ := simStep_more_shape cfg env args s s' hs
  constructor
  · rcases insertStep_shape cfg args s.result least (materialize env args.dtype least) s'.result hins with
      hsame | ⟨d1, dn, hr, hmode, -, hlat, hstat, hord, -⟩
    · rw [hsame]; exact hP.1
    · intro e he hc
      rw [hr] at he
      rcases List.mem_append.mp he with hbase | hlast
      · split at hbase
        · obtain ⟨a, ha, rfl⟩ := List.mem_map.mp hbase
          have hf := shortenOne_frame d1 a
          rw [hf.1, hf.2.1, hf.2.2.2.1]
          rw [hf.2.2.1] at hc
          exact hP.1 a ha hc
        · exact hP.1 e hbase hc
      · have he1 : e = dn := by simpa using hlast
        have hW : (0 : Int) ≤ (least.curOrder.wait : Int) := Int.ofNat_nonneg _
        rcases hmode with ⟨-, hdn, hsch⟩ | ⟨-, hdn, hsch⟩
        · have laf := lateAdjust_frame d1 least.curOrder.wait
          have hstatus : least.status = DepartureStatus.cancelled := by
            rw [he1, hdn, laf.2.1, hstat] at hc
            exact hc
          have hE := hP.2 least (List.get?_mem hleast) hstatus
          have hss : e.scheduledDate = env.nowTicks + least.expectedDate - least.lateness := by
            rw [he1, hdn, laf.1, hsch]; rfl
          have hoo : e.order = least.curOrder := by
            rw [he1, hdn, laf.2.2.1, hord]; rfl
          rcases lateAdjust_lateness d1 least.curOrder.wait with hl | hl
          · have hll : e.lateness = least.lateness := by rw [he1, hdn, hl, hlat]; rfl
            rw [hss, hll, hoo]; omega
          · have hll : e.lateness = least.lateness - (least.curOrder.wait : Int) := by
              rw [he1, hdn, hl, hlat]; rfl
            rw [hss, hll, hoo]; omega
        · have hstatus : least.status = DepartureStatus.cancelled := by
            rw [he1, hdn, hstat] at hc
            exact hc
          have hE := hP.2 least (List.get?_mem hleast) hstatus
          have hss : e.scheduledDate =
              env.nowTicks + least.expectedDate - least.lateness - (least.curOrder.wait : Int) := by
            rw [he1, hdn, hsch]; rfl
          have hll : e.lateness = least.lateness := by rw [he1, hdn, hlat]; rfl
          have hoo : e.order = least.curOrder := by rw [he1, hdn, hord]; rfl
          rw [hss, hll, hoo]; omega
  · intro od2 hod2
    rw [hset] at hod2
    rcases List.mem_or_eq_of_mem_set hod2 with hmem | heq
    · exact hP.2 od2 hmem
    · have hcan := advanceOd_cancel cfg args.station args.dtype args.showVia least od'
        hadv (hP.2 least (List.get?_mem hleast))
      rw [heq]
      exact hcan.1

/-- C7: a vehicle whose current order is a go-to-depot order with a halt
action always yields a Cancelled candidate if it yields one at all; and
every Cancelled entry of any returned list has a nonnegative raw start
date.  Since the returned lateness of a late entry was reduced by the
source order's wait time after insertion, the raw start date
`expected_date` of the entry at insertion satisfies
`now <= scheduled_date + lateness + order.wait`, which is the returned
form of `expected_date >= 0`. -/
theorem C7_cancelled (cfg : Config) (env : Env) (args : Args) (res : List Departure)
    (v : Vehicle) (od : OrderDate)
    (hv : v.currentOrder.otype = OType.gotoDepot ∧ v.currentOrder.depotHalt = true)
    (hscan : scanOne cfg env args.station args.dtype args.showVia args.showPax args.showFreight v =
      WalkRes.found od)
    (h : MakeDepartureList cfg env args = some res) :
    od.status = DepartureStatus.cancelled ∧
    ∀ e ∈ res, e.status = DepartureStatus.cancelled →
      env.nowTicks ≤ e.scheduledDate + e.lateness + (e.order.wait : Int) := by
  constructor
  · exact (scanOne_found_props cfg env args.station args.dtype args.showVia args.showPax
      args.showFreight v od hscan).2.2.2 hv
  · unfold MakeDepartureList at h
    split at h
    · simp only [Option.some.injEq] at h; rw [← h]; simp
    · split at h
      · simp only [Option.some.injEq] at h; rw [← h]; simp
      · simp at h
      · rename_i ods least0 hscanT
        split at h
        · simp only [Option.some.injEq] at h; rw [← h]; simp
        · have hpool : ∀ od2 ∈ ods, od2.status = DepartureStatus.cancelled →
              0 ≤ od2.expectedDate := by
            intro od2 hod2 hc
            rcases scanTypes_mem cfg env args [0, 1, 2, 3] [] none ods _ hscanT od2 hod2 with
              hx | ⟨i, vs, v2, -, -, hs2⟩
            · simp at hx
            · exact (scanOne_found_props cfg env args.station args.dtype args.showVia args.showPax
                args.showFreight v2 od2 hs2).2.2.1 hc
          exact simLoop_inv cfg env args
            (fun s => (∀ e ∈ s.result, e.status = DepartureStatus.cancelled →
                env.nowTicks ≤ e.scheduledDate + e.lateness + (e.order.wait : Int)) ∧
              (∀ od2 ∈ s.nextOrders, od2.status = DepartureStatus.cancelled →
                0 ≤ od2.expectedDate))
            (fun r => ∀ e ∈ r, e.status = DepartureStatus.cancelled →
              env.nowTicks ≤ e.scheduledDate + e.lateness + (e.order.wait : Int))
            (fun s s' hPs hss => simStep_cancel_inv cfg env args s s' hPs hss)
            (fun s hPs => hPs.1) 10000 _ res ⟨by simp, hpool⟩ h

/-- Witness for C7: the depot-halt vehicle's candidate is cancelled, and
the first entry of its run satisfies the raw-start-date bound. -/
theorem C7_cancelled_witness :
    exOdC7.status = DepartureStatus.cancelled ∧
    exEnv.nowTicks ≤ (exResC7.getD 0 default).scheduledDate + (exResC7.getD 0 default).lateness +
      (((exResC7.getD 0 default).order.wait : Int)) :=
  ⟨(C7_cancelled exCfgC7 exEnv (exArgs 1 [exVehC7] DepartureType.departure) exResC7 exVehC7 exOdC7
      ⟨rfl, rfl⟩ rfl rfl).1,
   (C7_cancelled exCfgC7 exEnv (exArgs 1 [exVehC7] DepartureType.departure) exResC7 exVehC7 exOdC7
      ⟨rfl, rfl⟩ rfl rfl).2 (exResC7.getD 0 default) (by decide) (by decide)⟩

/-- In departure mode the selection key is plainly
`expected_date - lateness`. -/
lemma odKey_dep (dtype : DepartureType) (od : OrderDate)
    (hdt : dtype = DepartureType.departure) :
    odKey dtype od = od.expectedDate - od.lateness := by
  rw [hdt]
  simp [odKey, odWaitAdj]

/-- Advancing a candidate never lowers its selection key, provided its
key was within the horizon and its lateness is small enough for the
`INT32_MAX` tombstone to stay above the horizon. -/
lemma advanceOd_key (cfg : Config) (station : Nat) (dtype : DepartureType)
    (showVia : Bool) (od od' : OrderDate)
    (h : advanceOd cfg station dtype showVia od = some od')
    (hk : od.expectedDate - od.lateness ≤ cfg.maxDate)
    (h4 : od.lateness + cfg.maxDate < INT32_MAX) :
    od.expectedDate - od.lateness ≤ od'.expectedDate - od'.lateness ∧
    od'.lateness = od.lateness := by
  simp only [advanceOd] at h
  split at h
  · simp at h
  · rename_i idx e heqw
    simp only [Option.some.injEq] at h
    subst h
    have hge := advanceWalk_found_ge cfg station dtype showVia od.v od.lateness _ _ _ _ _ heqw
    have ht : (0 : Int) ≤ ((od.v.orders.getD (nextIdx od.v od.orderIdx) default).travel : Int) :=
      Int.ofNat_nonneg _
    have hwt : (0 : Int) ≤ ((od.v.orders.getD (nextIdx od.v od.orderIdx) default).wait : Int) :=
      Int.ofNat_nonneg _
    unfold demoteArrived
    split
    · refine ⟨?_, rfl⟩
      simp only
      omega
    · refine ⟨?_, rfl⟩
      simp only
      omega
  · simp only [Option.some.injEq] at h
    subst h
    unfold demoteArrived
    split
    · refine ⟨?_, rfl⟩
      simp only
      omega
    · refine ⟨?_, rfl⟩
      simp only
      omega

/-- Running-minimum property of the least-candidate recomputation fold:
starting from a valid index whose key is above `bound`, the fold lands on
a valid index whose key is above `bound`, at most the start key, and at
most the key of every processed candidate below the horizon. -/
lemma recomputeLeast_fold (cfg : Config) (dtype : DepartureType) (ods : List OrderDate)
    (bound : Int)
    (hall : ∀ od ∈ ods, od.expectedDate - od.lateness < cfg.maxDate →
      bound ≤ odKey dtype od) :
    ∀ (l : List Nat) (li : Nat) (lo : OrderDate),
      ods.get? li = some lo → bound ≤ odKey dtype lo →
      ∃ mo, ods.get? (l.foldl (fun li2 i =>
          match ods.get? li2, ods.get? i with
          | some lod, some od =>
            if odKey dtype od < odKey dtype lod ∧
                od.expectedDate - od.lateness < cfg.maxDate then i else li2
          | _, _ => li2) li) = some mo ∧
        odKey dtype mo ≤ odKey dtype lo ∧
        bound ≤ odKey dtype mo ∧
        ∀ i ∈ l, ∀ od2, ods.get? i = some od2 →
          od2.expectedDate - od2.lateness < cfg.maxDate → odKey dtype mo ≤ odKey dtype od2 := by
  intro l
  induction l with
  | nil =>
    intro li lo hlo hb
    exact ⟨lo, hlo, le_refl _, hb, by simp⟩
  | cons i rest ih =>
    intro li lo hlo hb
    simp only [List.foldl_cons]
    rcases hgi : ods.get? i with _ | od2
    · have hstep : (match ods.get? li, (none : Option OrderDate) with
          | some lod, some od =>
            if odKey dtype od < odKey dtype lod ∧
                od.expectedDate - od.lateness < cfg.maxDate then i else li
          | _, _ => li) = li := by
        rw [hlo]
      rw [hstep]
      obtain ⟨mo, h1, h2, h3, h4⟩ := ih li lo hlo hb
      refine ⟨mo, h1, h2, h3, ?_⟩
      intro j hj od3 hg3 hflt
      rcases List.mem_cons.mp hj with rfl | hj2
      · rw [hg3] at hgi; cases hgi
      · exact h4 j hj2 od3 hg3 hflt
    · by_cases hcond : odKey dtype od2 < odKey dtype lo ∧
          od2.expectedDate - od2.lateness < cfg.maxDate
      · have hstep : (match ods.get? li, some od2 with
            | some lod, some od =>
              if odKey dtype od < odKey dtype lod ∧
                  od.expectedDate - od.lateness < cfg.maxDate then i else li
            | _, _ => li) = i := by
          rw [hlo]
          simp [hcond]
        rw [hstep]
        obtain ⟨mo, h1, h2, h3, h4⟩ :=
          ih i od2 hgi (hall od2 (List.get?_mem hgi) hcond.2)
        refine ⟨mo, h1, le_trans h2 (le_of_lt hcond.1), h3, ?_⟩
        intro j hj od3 hg3 hflt
        rcases List.mem_cons.mp hj with rfl | hj2
        · rw [hg3] at hgi
          injection hgi with hgi2
          rw [hgi2]
          exact h2
        · exact h4 j hj2 od3 hg3 hflt
      · have hstep : (match ods.get? li, some od2 with
            | some lod, some od =>
              if odKey dtype od < odKey dtype lod ∧
                  od.expectedDate - od.lateness < cfg.maxDate then i else li
            | _, _ => li) = li := by
          rw [hlo]
          simp only [if_neg hcond]
        rw [hstep]
        obtain ⟨mo, h1, h2, h3, h4⟩ := ih li lo hlo hb
        refine ⟨mo, h1, h2, h3, ?_⟩
        intro j hj od3 hg3 hflt
        rcases List.mem_cons.mp hj with rfl | hj2
        · rw [hg3] at hgi
          injection hgi with hgi2
          subst hgi2
          rcases not_and_or.mp hcond with hx | hx
          · exact le_trans h2 (le_of_not_lt hx)
          · exact absurd hflt hx
        · exact h4 j hj2 od3 hg3 hflt

/-- `recomputeLeast` lands on a valid candidate whose key is a lower
bound of every below-horizon candidate, is at most the start candidate's
key, and stays above any bound the pool respects. -/
lemma recomputeLeast_spec (cfg : Config) (dtype : DepartureType) (ods : List OrderDate)
    (start : Nat) (bound : Int) (lo : OrderDate)
    (hget : ods.get? start = some lo) (hb : bound ≤ odKey dtype lo)
    (hall : ∀ od ∈ ods, od.expectedDate - od.lateness < cfg.maxDate →
      bound ≤ odKey dtype od) :
    ∃ mo, ods.get? (recomputeLeast cfg dtype ods start) = some mo ∧
      odKey dtype mo ≤ odKey dtype lo ∧ bound ≤ odKey dtype mo ∧
      ∀ od2 ∈ ods, od2.expectedDate - od2.lateness < cfg.maxDate →
        odKey dtype mo ≤ odKey dtype od2 := by
  obtain ⟨mo, h1, h2, h3, h4⟩ :=
    recomputeLeast_fold cfg dtype ods bound hall (List.range ods.length) start lo hget hb
  refine ⟨mo, h1, h2, h3, ?_⟩
  intro od2 hod2 hflt
  obtain ⟨j, hj⟩ := List.mem_iff_get?.mp hod2
  have hjlen : j < ods.length := by
    by_contra hx
    rw [List.get?_eq_none.mpr (le_of_not_lt hx)] at hj
    cases hj
  exact h4 j (List.mem_range.mpr hjlen) od2 hj hflt

/-- The running-least bookkeeping of the scan phase: appending a
candidate keeps the tracked least index valid and minimal. -/
lemma pushOd_least (dtype : DepartureType) (acc : List OrderDate) (least : Option Nat)
    (od : OrderDate)
    (hP : (∀ li, least = some li → ∃ lod, acc.get? li = some lod ∧
            ∀ x ∈ acc, odKey dtype lod ≤ odKey dtype x) ∧
          (least = none → acc = [])) :
    (∀ li, (pushOd dtype acc least od).2 = some li →
      ∃ lod, (pushOd dtype acc least od).1.get? li = some lod ∧
        ∀ x ∈ (pushOd dtype acc least od).1, odKey dtype lod ≤ odKey dtype x) ∧
    ((pushOd dtype acc least od).2 = none → (pushOd dtype acc least od).1 = []) := by
  rcases least with _ | li0
  · have hacc : acc = [] := hP.2 rfl
    subst hacc
    refine ⟨?_, ?_⟩
    · intro li hli
      simp only [pushOd, Option.some.injEq] at hli
      subst hli
      refine ⟨od, rfl, ?_⟩
      intro x hx
      have : x = od := by simpa [pushOd] using hx
      rw [this]
    · intro hli
      simp [pushOd] at hli
  · obtain ⟨lod, hget, hmin⟩ := hP.1 li0 rfl
    have hlen : li0 < acc.length := by
      by_contra hx
      rw [List.get?_eq_none.mpr (le_of_not_lt hx)] at hget
      cases hget
    refine ⟨?_, ?_⟩
    · intro li hli
      simp only [pushOd, hget] at hli
      split at hli
      · -- the new candidate wins
        rename_i hwin
        simp only [Option.some.injEq] at hli
        subst hli
        refine ⟨od, ?_, ?_⟩
        · simp [pushOd]
        · intro x hx
          rcases (by simpa [pushOd] using hx : x ∈ acc ∨ x = od) with ha | hb
          · exact le_trans (le_of_lt hwin) (hmin x ha)
          · rw [hb]
      · -- the previous least stays
        rename_i hlose
        simp only [Option.some.injEq] at hli
        subst hli
        refine ⟨lod, ?_, ?_⟩
        · simp only [pushOd]
          rw [List.get?_append hlen]
          exact hget
        · intro x hx
          rcases (by simpa [pushOd] using hx : x ∈ acc ∨ x = od) with ha | hb
          · exact hmin x ha
          · rw [hb]
            exact le_of_not_lt hlose
    · intro hli
      simp only [pushOd, hget] at hli
      split at hli <;> cases hli

/-- The per-roster vehicle scan keeps the least bookkeeping invariant. -/
lemma scanVehList_least (cfg : Config) (env : Env) (args : Args) :
    ∀ (vs : List Vehicle) (acc : List OrderDate) (least : Option Nat)
      (acc' : List OrderDate) (least' : Option Nat),
      scanVehList cfg env args vs acc least = some (acc', least') →
      ((∀ li, least = some li → ∃ lod, acc.get? li = some lod ∧
          ∀ x ∈ acc, odKey args.dtype lod ≤ odKey args.dtype x) ∧
        (least = none → acc = [])) →
      (∀ li, least' = some li → ∃ lod, acc'.get? li = some lod ∧
          ∀ x ∈ acc', odKey args.dtype lod ≤ odKey args.dtype x) ∧
      (least' = none → acc' = []) := by
  intro vs
  induction vs with
  | nil =>
    intro acc least acc' least' h hP
    simp only [scanVehList, Option.some.injEq, Prod.mk.injEq] at h
    rw [← h.1, ← h.2]
    exact hP
  | cons v vs ih =>
    intro acc least acc' least' h hP
    simp only [scanVehList] at h
    split at h
    · simp at h
    · exact ih _ _ _ _ h hP
    · exact ih _ _ _ _ h (pushOd_least args.dtype acc least _ hP)

/-- The scan over the vehicle types keeps the least bookkeeping
invariant. -/
lemma scanTypes_least (cfg : Config) (env : Env) (args : Args) :
    ∀ (l : List Nat) (acc : List OrderDate) (least : Option Nat)
      (ods : List OrderDate) (least' : Option Nat),
      scanTypes cfg env args l acc least = ScanPhaseRes.ok ods least' →
      ((∀ li, least = some li → ∃ lod, acc.get? li = some lod ∧
          ∀ x ∈ acc, odKey args.dtype lod ≤ odKey args.dtype x) ∧
        (least = none → acc = [])) →
      (∀ li, least' = some li → ∃ lod, ods.get? li = some lod ∧
          ∀ x ∈ ods, odKey args.dtype lod ≤ odKey args.dtype x) ∧
      (least' = none → ods = []) := by
  intro l
  induction l with
  | nil =>
    intro acc least ods least' h hP
    simp only [scanTypes, ScanPhaseRes.ok.injEq] at h
    rw [← h.1, ← h.2]
    exact hP
  | cons i rest ih =>
    intro acc least ods least' h hP
    simp only [scanTypes] at h
    split at h
    · exact ih _ _ _ _ h hP
    · split at h
      · simp at h
      · rename_i vs heqr
        split at h
        · simp at h
        · rename_i acc2 least2 heqv
          exact ih _ _ _ _ h (scanVehList_least cfg env args vs acc least acc2 least2 heqv hP)

/-- The simulator step preserves the departure-mode monotonicity
invariant. -/
lemma simStep_mono_inv (cfg : Config) (env : Env) (args : Args) (s s' : SimState)
    (hdt : args.dtype = DepartureType.departure)
    (hP : monoInv cfg env s)
    (hs : simStep cfg env args s = StepRes.more s') :
    monoInv cfg env s' := by
  obtain ⟨hchain, hleastP, hlatP⟩ := hP
  obtain ⟨least, od', hleast, hguard, hins, hadv, hset, hidx⟩ :=
    simStep_more_shape cfg env args s s' hs
  obtain ⟨hresB, hminB⟩ := hleastP least hleast
  have hkey : least.expectedDate - least.lateness ≤ cfg.maxDate := by
    rcases le_or_lt (least.expectedDate - least.lateness) cfg.maxDate with hx | hx
    · exact hx
    · exact absurd (Or.inr hx) hguard
  have hmemL : least ∈ s.nextOrders := List.get?_mem hleast
  have h4 : least.lateness + cfg.maxDate < INT32_MAX := hlatP least hmemL
  obtain ⟨hkadv, hlatadv⟩ :=
    advanceOd_key cfg args.station args.dtype args.showVia least od' hadv hkey h4
  have hget' : s'.nextOrders.get? s.leastIdx = some od' := by
    rw [hset, List.get?_set_eq, hleast]
    rfl
  have hmem' : ∀ od ∈ s'.nextOrders, od ∈ s.nextOrders ∨ od = od' := by
    intro od hod
    rw [hset] at hod
    exact List.mem_or_eq_of_mem_set hod
  have hlat' : ∀ od ∈ s'.nextOrders, od.lateness + cfg.maxDate < INT32_MAX := by
    intro od hod
    rcases hmem' od hod with hx | hx
    · exact hlatP od hx
    · rw [hx, hlatadv]
      exact h4
  have hb' : odKey args.dtype least ≤ odKey args.dtype od' := by
    rw [odKey_dep _ _ hdt, odKey_dep _ _ hdt]
    exact hkadv
  have hall' : ∀ od ∈ s'.nextOrders, od.expectedDate - od.lateness < cfg.maxDate →
      odKey args.dtype least ≤ odKey args.dtype od := by
    intro od hod hflt
    rcases hmem' od hod with hx | hx
    · rw [odKey_dep _ _ hdt, odKey_dep _ _ hdt]
      exact hminB od hx hflt
    · rw [hx]
      exact hb'
  obtain ⟨mo, hmo, hmole, hmob, hmomin⟩ :=
    recomputeLeast_spec cfg args.dtype s'.nextOrders s.leastIdx (odKey args.dtype least)
      od' hget' hb' hall'
  have hmo' : s'.nextOrders.get? s'.leastIdx = some mo := by
    rw [hidx]
    exact hmo
  have hkeymo : least.expectedDate - least.lateness ≤ mo.expectedDate - mo.lateness := by
    rw [odKey_dep _ _ hdt, odKey_dep _ _ hdt] at hmob
    exact hmob
  have hminmo : ∀ od ∈ s'.nextOrders, od.expectedDate - od.lateness < cfg.maxDate →
      mo.expectedDate - mo.lateness ≤ od.expectedDate - od.lateness := by
    intro od hod hflt
    have hx := hmomin od hod hflt
    rw [odKey_dep _ _ hdt, odKey_dep _ _ hdt] at hx
    exact hx
  rcases insertStep_shape cfg args s.result least (materialize env args.dtype least)
      s'.result hins with hsame | ⟨d1, dn, hr, hmode, hdup, hl1, hst1, hor1, hdt1⟩
  · refine ⟨by rw [hsame]; exact hchain, ?_, hlat'⟩
    intro lo hlo
    have hlo2 : lo = mo := by
      rw [hmo'] at hlo
      exact (Option.some_inj.mp hlo).symm
    subst hlo2
    refine ⟨?_, hminmo⟩
    intro e he
    rw [hsame] at he
    have hb := hresB e he
    omega
  · have hdn : dn.scheduledDate = env.nowTicks + least.expectedDate - least.lateness := by
      rcases hmode with ⟨-, hdn1, hd1s⟩ | ⟨harr, -, -⟩
      · rw [hdn1, (lateAdjust_frame d1 least.curOrder.wait).1, hd1s]
        exact (materialize_fields env args.dtype least).1
      · rw [hdt] at harr
        simp at harr
    have hbase_sched :
        (if cfg.smartTerminus = true ∧ args.dtype = DepartureType.departure
          then s.result.map (shortenOne d1) else s.result).map Departure.scheduledDate =
          s.result.map Departure.scheduledDate := by
      split
      · rw [List.map_map]
        exact List.map_congr_left (fun a _ => (shortenOne_frame d1 a).1)
      · rfl
    refine ⟨?_, ?_, hlat'⟩
    · rw [hr, List.map_append, hbase_sched, List.chain'_append]
      refine ⟨hchain, by simp, ?_⟩
      intro x hx y hy
      obtain ⟨hne, hxe⟩ := List.mem_getLast?_eq_getLast hx
      have hxmem : x ∈ s.result.map Departure.scheduledDate := hxe ▸ List.getLast_mem hne
      obtain ⟨e, hemem, hesched⟩ := List.mem_map.mp hxmem
      have hy2 : y = dn.scheduledDate := by
        have hy3 := (by simpa using hy : dn.scheduledDate = y)
        exact hy3.symm
      have hb := hresB e hemem
      rw [← hesched, hy2, hdn]
      omega
    · intro lo hlo
      have hlo2 : lo = mo := by
        rw [hmo'] at hlo
        exact (Option.some_inj.mp hlo).symm
      subst hlo2
      refine ⟨?_, hminmo⟩
      intro e he
      rw [hr] at he
      rcases List.mem_append.mp he with hbm | hlast
      · split at hbm
        · obtain ⟨a, ha, rfl⟩ := List.mem_map.mp hbm
          rw [(shortenOne_frame d1 a).1]
          have hb := hresB a ha
          omega
        · have hb := hresB e hbm
          omega
      · have he1 : e = dn := by simpa using hlast
        rw [he1, hdn]
        omega

/-- C1 amended: in departure mode, when every rostered vehicle's clamped
lateness keeps the `INT32_MAX` tombstone above the horizon, the returned
list is non-decreasing in scheduled date, which at insertion time is the
selection key `expected_date - lateness` offset by `now`. -/
theorem C1_amended_monotone (cfg : Config) (env : Env) (args : Args) (res : List Departure)
    (hdt : args.dtype = DepartureType.departure)
    (hlat : ∀ i vs, args.rosters.getD i none = some vs → ∀ v ∈ vs,
      (if 0 < v.lateness then v.lateness else 0) + cfg.maxDate < INT32_MAX)
    (h : MakeDepartureList cfg env args = some res) :
    List.Chain' (fun a b : Int => a ≤ b) (res.map Departure.scheduledDate) := by
  unfold MakeDepartureList at h
  split at h
  · simp only [Option.some.injEq] at h
    rw [← h]
    simp
  · split at h
    · simp only [Option.some.injEq] at h
      rw [← h]
      simp
    · simp at h
    · rename_i ods least0 hok
      split at h
      · simp only [Option.some.injEq] at h
        rw [← h]
        simp
      · rename_i li
        have hlatods : ∀ od ∈ ods, od.lateness + cfg.maxDate < INT32_MAX := by
          intro od hod
          rcases scanTypes_mem cfg env args [0, 1, 2, 3] [] none ods (some li) hok od hod with
            hx | ⟨i, vs, v, hvs, hv, hscan⟩
          · cases hx
          · have hp := scanOne_found_props cfg env args.station args.dtype args.showVia
              args.showPax args.showFreight v od hscan
            rw [hp.2.1]
            exact hlat i vs hvs v hv
        have hinit : monoInv cfg env { result := [], nextOrders := ods, leastIdx := li } := by
          refine ⟨by simp, ?_, hlatods⟩
          intro lo hlo
          have hlo2 : ods.get? li = some lo := hlo
          obtain ⟨hA, -⟩ := scanTypes_least cfg env args [0, 1, 2, 3] [] none ods (some li) hok
            ⟨fun li' h' => Option.noConfusion h', fun _ => rfl⟩
          obtain ⟨lod, hgetlod, hminlod⟩ := hA li rfl
          have hlod : lod = lo := by
            rw [hlo2] at hgetlod
            exact (Option.some_inj.mp hgetlod).symm
          subst hlod
          refine ⟨fun e he => absurd he (List.not_mem_nil e), ?_⟩
          intro od hod hflt
          have hx := hminlod od hod
          rw [odKey_dep _ _ hdt, odKey_dep _ _ hdt] at hx
          exact hx
        exact simLoop_inv cfg env args (monoInv cfg env)
          (fun r => List.Chain' (fun a b : Int => a ≤ b) (r.map Departure.scheduledDate))
          (fun s s' hP hs => simStep_mono_inv cfg env args s s' hdt hP hs)
          (fun s hP => hP.1) 10000 _ res hinit h

/-- Witness for the amended C1 at a concrete departure-mode run with two
returned entries. -/
theorem C1_amended_monotone_witness :
    List.Chain' (fun a b : Int => a ≤ b) (exResC1w.map Departure.scheduledDate) :=
  C1_amended_monotone exCfgC1w exEnv (exArgs 2 [exVehA] DepartureType.departure) exResC1w rfl
    (by
      intro i vs hvs v hv
      rcases i with _ | _ | _ | _ | i4
      · have h0 : (some [exVehA] : Option (List Vehicle)) = some vs := hvs
        injection h0 with h0
        subst h0
        have hv2 : v = exVehA := List.mem_singleton.mp hv
        subst hv2
        decide
      · have h1 : (none : Option (List Vehicle)) = some vs := hvs
        cases h1
      · have h1 : (none : Option (List Vehicle)) = some vs := hvs
        cases h1
      · have h1 : (none : Option (List Vehicle)) = some vs := hvs
        cases h1
      · have h1 : (none : Option (List Vehicle)) = some vs := hvs
        cases h1)
    rfl
